import Mathlib

/-!
Shallow embedding of the code-bookmark repository core
(src/bookmark.ts, src/bookmarkGroup.ts, src/bookmarkManager.ts).

Modelling conventions:
* `vscode.Uri` is modelled by its canonical string form (`uri.toString()`);
  `vscode.Uri.parse` on a canonical string is the identity.  A record whose
  `uri` field is absent makes `vscode.Uri.parse` throw, which is modelled by
  `Option` fields in the serialized records.
* `Date` values are modelled as `Nat` (epoch milliseconds); `toISOString`
  followed by `new Date(...)` is exact at this precision, so serialized
  timestamps are carried as `Nat` as well.
* `Date.now()` and `Math.floor(Math.random() * 1000)` are nondeterministic
  inputs of the constructors; they are passed as explicit `now`/`rand`
  arguments to the operations that create entities.
* In-place mutation of an object found by a search is modelled by a
  functional update that replaces the group at the position the search
  returns, following exactly the same traversal order as the search.
* `EventEmitter.fire` and `saveState` (persistence write) are modelled as an
  emitted trace of abstract actions `Ev.fire` / `Ev.persist`, in the order
  the code performs them.
-/

/-- Event trace actions: a change notification firing, a persistence write. -/
inductive Ev where
  | fire : Ev
  | persist : Ev
deriving DecidableEq, Repr

/-- `path.basename` of a path string: the component after the last slash. -/
def basename (p : String) : String :=
  ((p.splitOn "/").getLast? ).getD p

/-- `uri.fsPath`: the filesystem path of a uri given by its canonical string,
modelled as the part after the `scheme://` prefix (the whole string when no
scheme separator occurs). -/
def fsPath (uri : String) : String :=
  match uri.splitOn "://" with
  | [_, rest] => rest
  | _ => uri

/-- src/bookmark.ts: class Bookmark.  `uri` holds the canonical string form. -/
structure Bookmark where
  id : String
  uri : String
  name : String
  description : String
  createdAt : Nat
deriving DecidableEq, Repr

/-- Bookmark id generation: `bookmark-${Date.now()}-${Math.floor(Math.random()*1000)}`. -/
def mkBookmarkId (now rand : Nat) : String :=
  "bookmark-" ++ toString now ++ "-" ++ toString rand

/-- Group id generation: `group-${Date.now()}-${Math.floor(Math.random()*1000)}`. -/
def mkGroupId (now rand : Nat) : String :=
  "group-" ++ toString now ++ "-" ++ toString rand

/-- src/bookmark.ts: the Bookmark constructor.  `name` falls back (JS `||`)
to the basename of the uri's fsPath on `undefined` or the empty string;
`description` falls back to the empty string. -/
def Bookmark.create (uri : String) (name? description? : Option String)
    (now rand : Nat) : Bookmark :=
  { id := mkBookmarkId now rand
    uri := uri
    name := match name? with
      | some n => if n = "" then basename (fsPath uri) else n
      | none => basename (fsPath uri)
    description := match description? with
      | some d => d
      | none => ""
    createdAt := now }

/-- src/bookmarkGroup.ts: class BookmarkGroup.  `parent` is the back
reference to the owning group, modelled by the owning group's id (the TS
object reference is identified by the id it carries). -/
inductive BookmarkGroup where
  | mk (id : String) (name : String) (description : String)
       (bookmarks : List Bookmark) (groups : List BookmarkGroup)
       (parent : Option String) (createdAt : Nat) : BookmarkGroup

def BookmarkGroup.id : BookmarkGroup → String
  | .mk i _ _ _ _ _ _ => i

def BookmarkGroup.name : BookmarkGroup → String
  | .mk _ n _ _ _ _ _ => n

def BookmarkGroup.description : BookmarkGroup → String
  | .mk _ _ d _ _ _ _ => d

def BookmarkGroup.bookmarks : BookmarkGroup → List Bookmark
  | .mk _ _ _ bks _ _ _ => bks

def BookmarkGroup.groups : BookmarkGroup → List BookmarkGroup
  | .mk _ _ _ _ gs _ _ => gs

def BookmarkGroup.parent : BookmarkGroup → Option String
  | .mk _ _ _ _ _ p _ => p

def BookmarkGroup.createdAt : BookmarkGroup → Nat
  | .mk _ _ _ _ _ _ t => t

def BookmarkGroup.setBookmarks : BookmarkGroup → List Bookmark → BookmarkGroup
  | .mk i n d _ gs p t, bks => .mk i n d bks gs p t

def BookmarkGroup.setGroups : BookmarkGroup → List BookmarkGroup → BookmarkGroup
  | .mk i n d bks _ p t, gs => .mk i n d bks gs p t

def BookmarkGroup.withParent : BookmarkGroup → Option String → BookmarkGroup
  | .mk i n d bks gs _ t, p => .mk i n d bks gs p t

/-- src/bookmarkGroup.ts: the BookmarkGroup constructor. -/
def BookmarkGroup.create (name : String) (description? : Option String)
    (parent? : Option String) (now rand : Nat) : BookmarkGroup :=
  .mk (mkGroupId now rand) name
    (match description? with | some d => d | none => "")
    [] [] parent? now

/-- BookmarkGroup.addBookmark: append unless a bookmark with the same id is
already present in this group's own list. -/
def BookmarkGroup.addBookmark (b : Bookmark) : BookmarkGroup → BookmarkGroup
  | .mk i n d bks gs p t =>
    if bks.any (fun x => x.id == b.id) then .mk i n d bks gs p t
    else .mk i n d (bks ++ [b]) gs p t

/-- BookmarkGroup.removeBookmark: filter this group's own bookmarks; the
boolean reports whether the length changed. -/
def BookmarkGroup.removeBookmark (id : String) : BookmarkGroup → BookmarkGroup × Bool
  | .mk i n d bks gs p t =>
    let bks' := bks.filter (fun x => !(x.id == id))
    (.mk i n d bks' gs p t, !(bks'.length == bks.length))

/-- BookmarkGroup.addGroup: append a child unless a child with the same id
already exists locally; the child's `parent` is set to this group inside the
guard. -/
def BookmarkGroup.addGroup (child : BookmarkGroup) : BookmarkGroup → BookmarkGroup
  | .mk i n d bks gs p t =>
    if gs.any (fun x => x.id == child.id) then .mk i n d bks gs p t
    else .mk i n d bks (gs ++ [child.withParent (some i)]) p t

/-- BookmarkGroup.removeGroup: filter this group's direct children; the
boolean reports whether the length changed. -/
def BookmarkGroup.removeGroup (id : String) : BookmarkGroup → BookmarkGroup × Bool
  | .mk i n d bks gs p t =>
    let gs' := gs.filter (fun x => !(x.id == id))
    (.mk i n d bks gs' p t, !(gs'.length == gs.length))

/-- BookmarkGroup.isEmpty. -/
def BookmarkGroup.isEmpty (g : BookmarkGroup) : Bool :=
  g.bookmarks.isEmpty && g.groups.isEmpty

mutual

/-- BookmarkManager.getAllGroupsRecursive(group): the group's children
followed by the recursive listings of each child, in order. -/
def subGroups : BookmarkGroup → List BookmarkGroup
  | .mk _ _ _ _ gs _ _ => gs ++ subGroupsList gs

/-- Concatenation of `subGroups` over a list of groups, in order. -/
def subGroupsList : List BookmarkGroup → List BookmarkGroup
  | [] => []
  | g :: gs => subGroups g ++ subGroupsList gs

end

/-- All groups of a forest in the visit order of
BookmarkManager.getAllGroups(): the list itself first, then the recursive
listings of each member. -/
def allGroupsL (gs : List BookmarkGroup) : List BookmarkGroup :=
  gs ++ subGroupsList gs

mutual

/-- Pre-order listing of a group's subtree: the group itself immediately
followed by its descendants, before the next sibling.  (Spec order for
`listAllGroups`; not what the code computes.) -/
def preOrderG : BookmarkGroup → List BookmarkGroup
  | .mk i n d bks gs p t => .mk i n d bks gs p t :: preOrderL gs

/-- Pre-order listing of a forest. -/
def preOrderL : List BookmarkGroup → List BookmarkGroup
  | [] => []
  | g :: gs => preOrderG g ++ preOrderL gs

end

mutual

/-- Ids of a group and all its descendants, in pre-order. -/
def gIdsG : BookmarkGroup → List String
  | .mk i _ _ _ gs _ _ => i :: gIdsL gs

/-- Ids of a forest and all descendants, in pre-order. -/
def gIdsL : List BookmarkGroup → List String
  | [] => []
  | g :: gs => gIdsG g ++ gIdsL gs

end

mutual

/-- Bookmarks of a group and all its descendants, in pre-order
(BookmarkGroup.getAllBookmarks). -/
def bksG : BookmarkGroup → List Bookmark
  | .mk _ _ _ bks gs _ _ => bks ++ bksL gs

/-- Bookmarks owned anywhere inside a forest, in pre-order. -/
def bksL : List BookmarkGroup → List Bookmark
  | [] => []
  | g :: gs => bksG g ++ bksL gs

end

/-- The manager's state: root bookmarks and root groups
(BookmarkManager.bookmarks / BookmarkManager.groups). -/
structure ManagerState where
  bookmarks : List Bookmark
  groups : List BookmarkGroup

/-- BookmarkManager.getAllGroups(): all root groups, then for each root its
recursive listing (children of a group before any of their descendants). -/
def getAllGroups (st : ManagerState) : List BookmarkGroup :=
  allGroupsL st.groups

/-- BookmarkManager.getAllBookmarks(): root bookmarks, then each group's own
bookmarks in `getAllGroups` order. -/
def getAllBookmarks (st : ManagerState) : List Bookmark :=
  st.bookmarks ++ (getAllGroups st).flatMap BookmarkGroup.bookmarks

/-- First `some` produced by `f` along a list (the `for … if … break`
search pattern of the manager). -/
def firstSome (f : α → Option β) : List α → Option β
  | [] => none
  | a :: as =>
    match f a with
    | some b => some b
    | none => firstSome f as

mutual

/-- BookmarkManager.findGroupByIdRecursive: the group itself, then its
children depth-first in order. -/
def findGroupByIdRec (id : String) : BookmarkGroup → Option BookmarkGroup
  | .mk i n d bks gs p t =>
    if i == id then some (.mk i n d bks gs p t)
    else findGroupByIdRecList id gs

/-- First match of `findGroupByIdRec` along a list of groups. -/
def findGroupByIdRecList (id : String) : List BookmarkGroup → Option BookmarkGroup
  | [] => none
  | g :: gs =>
    match findGroupByIdRec id g with
    | some r => some r
    | none => findGroupByIdRecList id gs

end

/-- BookmarkManager.findGroupById: root groups shallowly first, then the
recursive search from each root. -/
def findGroupByIdF (id : String) (gs : List BookmarkGroup) : Option BookmarkGroup :=
  match gs.find? (fun g => g.id == id) with
  | some g => some g
  | none => findGroupByIdRecList id gs

def findGroupById (st : ManagerState) (id : String) : Option BookmarkGroup :=
  findGroupByIdF id st.groups

/-- BookmarkManager.findBookmarkById: root bookmarks first, then each
group's own bookmarks in `getAllGroups` order. -/
def findBookmarkById (st : ManagerState) (id : String) : Option Bookmark :=
  match st.bookmarks.find? (fun b => b.id == id) with
  | some b => some b
  | none => firstSome (fun g => g.bookmarks.find? (fun b => b.id == id)) (getAllGroups st)

/-- One step of the manager's `for (const group of this.getAllGroups())`
removal loops over the root segment of the visit list: apply the per-group
updater `upd` to each group in order until it reports success, and splice
the updated group back at its position. -/
def scanShallow (upd : BookmarkGroup → BookmarkGroup × Bool) :
    List BookmarkGroup → Option (List BookmarkGroup)
  | [] => none
  | g :: gs =>
    match upd g with
    | (g', true) => some (g' :: gs)
    | (_, false) => (scanShallow upd gs).map (g :: ·)

mutual

/-- The removal loop restricted to the recursive listing
`getAllGroupsRecursive g` of one group: try the group's children shallowly
in order, then descend into each child's listing in order; splice the
update back at the position of the successful group. -/
def scanRec (upd : BookmarkGroup → BookmarkGroup × Bool) :
    BookmarkGroup → Option BookmarkGroup
  | .mk i n d bks gs p t =>
    match scanShallow upd gs with
    | some gs' => some (.mk i n d bks gs' p t)
    | none => (scanRecList upd gs).map (fun gs' => .mk i n d bks gs' p t)

/-- `scanRec` along a list of groups, splicing at the first success. -/
def scanRecList (upd : BookmarkGroup → BookmarkGroup × Bool) :
    List BookmarkGroup → Option (List BookmarkGroup)
  | [] => none
  | g :: gs =>
    match scanRec upd g with
    | some g' => some (g' :: gs)
    | none => (scanRecList upd gs).map (g :: ·)

end

/-- The manager's removal loop over the whole forest in
`getAllGroups` visit order: all roots shallowly first, then each root's
recursive listing.  Returns the rewritten forest on the first success. -/
def visitUpdateForest (upd : BookmarkGroup → BookmarkGroup × Bool)
    (gs : List BookmarkGroup) : Option (List BookmarkGroup) :=
  match scanShallow upd gs with
  | some gs' => some gs'
  | none => scanRecList upd gs

mutual

/-- In-place mutation of the group object returned by
`findGroupByIdRecursive`: rewrite the first group with the given id in the
same traversal order, applying `f` to it. -/
def findUpdRec (id : String) (f : BookmarkGroup → BookmarkGroup) :
    BookmarkGroup → Option BookmarkGroup
  | .mk i n d bks gs p t =>
    if i == id then some (f (.mk i n d bks gs p t))
    else (findUpdList id f gs).map (fun gs' => .mk i n d bks gs' p t)

/-- `findUpdRec` along a list of groups, splicing at the first success. -/
def findUpdList (id : String) (f : BookmarkGroup → BookmarkGroup) :
    List BookmarkGroup → Option (List BookmarkGroup)
  | [] => none
  | g :: gs =>
    match findUpdRec id f g with
    | some g' => some (g' :: gs)
    | none => (findUpdList id f gs).map (g :: ·)

end

/-- In-place mutation of the group object returned by
`BookmarkManager.findGroupById`: rewrite the first group with the given id,
searching root groups shallowly first, then recursively from each root —
the same order `findGroupById` searches. -/
def updateGroupInForest (id : String) (f : BookmarkGroup → BookmarkGroup)
    (gs : List BookmarkGroup) : Option (List BookmarkGroup) :=
  match scanShallow (fun g => if g.id == id then (f g, true) else (g, false)) gs with
  | some gs' => some gs'
  | none => findUpdList id f gs

/-- BookmarkManager.addBookmark: create the bookmark; if `groupId` is given
and resolves, add it to that group (in place), otherwise push it to the
root bookmarks; fire the change event, then persist. -/
def addBookmark (st : ManagerState) (uri : String)
    (name? description? : Option String) (groupId : Option String)
    (now rand : Nat) : ManagerState × Bookmark × List Ev :=
  let b := Bookmark.create uri name? description? now rand
  let st' : ManagerState :=
    match groupId with
    | some gid =>
      match updateGroupInForest gid (BookmarkGroup.addBookmark b) st.groups with
      | some gs' => ⟨st.bookmarks, gs'⟩
      | none => ⟨st.bookmarks ++ [b], st.groups⟩
    | none => ⟨st.bookmarks ++ [b], st.groups⟩
  (st', b, [.fire, .persist])

/-- BookmarkManager.removeBookmark: filter the root bookmarks; if nothing
was removed there, run the removal loop over every group's own bookmarks in
`getAllGroups` order; fire and persist only when something was removed. -/
def removeBookmark (st : ManagerState) (id : String) : ManagerState × Bool × List Ev :=
  let bks' := st.bookmarks.filter (fun b => !(b.id == id))
  if !(bks'.length == st.bookmarks.length) then
    (⟨bks', st.groups⟩, true, [.fire, .persist])
  else
    match visitUpdateForest (BookmarkGroup.removeBookmark id) st.groups with
    | some gs' => (⟨bks', gs'⟩, true, [.fire, .persist])
    | none => (⟨bks', st.groups⟩, false, [])

/-- BookmarkManager.createGroup: create the group; if `parentId` is given
and resolves, attach under it (in place, setting the child's parent),
otherwise push it to the root groups; fire, then persist. -/
def createGroup (st : ManagerState) (name : String) (description? : Option String)
    (parentId : Option String) (now rand : Nat) :
    ManagerState × BookmarkGroup × List Ev :=
  let g := BookmarkGroup.create name description? none now rand
  let st' : ManagerState :=
    match parentId with
    | some pid =>
      match updateGroupInForest pid (BookmarkGroup.addGroup g) st.groups with
      | some gs' => ⟨st.bookmarks, gs'⟩
      | none => ⟨st.bookmarks, st.groups ++ [g]⟩
    | none => ⟨st.bookmarks, st.groups ++ [g]⟩
  (st', g, [.fire, .persist])

/-- BookmarkManager.removeGroup: filter the root groups; if nothing was
removed there, run the removal loop over every group's direct children in
`getAllGroups` order; fire and persist only when something was removed. -/
def removeGroup (st : ManagerState) (id : String) : ManagerState × Bool × List Ev :=
  let gs1 := st.groups.filter (fun g => !(g.id == id))
  if !(gs1.length == st.groups.length) then
    (⟨st.bookmarks, gs1⟩, true, [.fire, .persist])
  else
    match visitUpdateForest (BookmarkGroup.removeGroup id) gs1 with
    | some gs' => (⟨st.bookmarks, gs'⟩, true, [.fire, .persist])
    | none => (⟨st.bookmarks, gs1⟩, false, [])

/-- BookmarkManager.updateGroup: in-place field update on the group
resolved by findGroupById; fields left undefined are unchanged. -/
def updateGroup (st : ManagerState) (id : String)
    (name? description? : Option String) : ManagerState × Bool × List Ev :=
  let f : BookmarkGroup → BookmarkGroup := fun g =>
    let g1 := match name? with
      | some n => .mk g.id n g.description g.bookmarks g.groups g.parent g.createdAt
      | none => g
    match description? with
    | some d => .mk g1.id g1.name d g1.bookmarks g1.groups g1.parent g1.createdAt
    | none => g1
  match updateGroupInForest id f st.groups with
  | some gs' => (⟨st.bookmarks, gs'⟩, true, [.fire, .persist])
  | none => (st, false, [])

/-- BookmarkManager.moveBookmarkToGroup: resolve both ids; on failure return
false leaving the state untouched; otherwise remove the bookmark from its
current location (this nested call fires and persists itself), add it to
the target group in place, then fire and persist again. -/
def moveBookmarkToGroup (st : ManagerState) (bookmarkId targetGroupId : String) :
    ManagerState × Bool × List Ev :=
  match findBookmarkById st bookmarkId, findGroupById st targetGroupId with
  | some b, some _ =>
    let r1 := removeBookmark st bookmarkId
    let st1 := r1.1
    let st2 : ManagerState :=
      match updateGroupInForest targetGroupId (BookmarkGroup.addBookmark b) st1.groups with
      | some gs' => ⟨st1.bookmarks, gs'⟩
      | none => st1
    (st2, true, r1.2.2 ++ [.fire, .persist])
  | _, _ => (st, false, [])

/-- BookmarkManager.getBookmarksForFile: exact string equality on the
canonical uri over all bookmarks. -/
def getBookmarksForFile (st : ManagerState) (uri : String) : List Bookmark :=
  (getAllBookmarks st).filter (fun b => b.uri == uri)

/-- BookmarkManager.isFileBookmarked. -/
def isFileBookmarked (st : ManagerState) (uri : String) : Bool :=
  !(getBookmarksForFile st uri).isEmpty

/-- Serialized form of a bookmark (`Bookmark.toJSON` output / `fromJSON`
input).  `uri`, `name` and `description` are `Option` because a record read
from a document may lack them: a missing `uri` makes `vscode.Uri.parse`
throw, while missing `name`/`description` merely fall back to defaults. -/
structure BookmarkRecord where
  id : String
  uri : Option String
  name : Option String
  description : Option String
  createdAt : Nat
deriving DecidableEq, Repr

/-- Serialized form of a group.  `bookmarks`/`groups` are `Option` because
`data.bookmarks.map(...)` throws when the field is absent or not an array. -/
inductive GroupRecord where
  | mk (id : String) (name : String) (description : Option String)
       (bookmarks : Option (List BookmarkRecord))
       (groups : Option (List GroupRecord))
       (createdAt : Nat) : GroupRecord

def GroupRecord.id : GroupRecord → String
  | .mk i _ _ _ _ _ => i

def GroupRecord.name : GroupRecord → String
  | .mk _ n _ _ _ _ => n

def GroupRecord.description : GroupRecord → Option String
  | .mk _ _ d _ _ _ => d

def GroupRecord.bookmarks : GroupRecord → Option (List BookmarkRecord)
  | .mk _ _ _ bks _ _ => bks

def GroupRecord.groups : GroupRecord → Option (List GroupRecord)
  | .mk _ _ _ _ gs _ => gs

def GroupRecord.createdAt : GroupRecord → Nat
  | .mk _ _ _ _ _ t => t

/-- Bookmark.toJSON. -/
def Bookmark.toJSON (b : Bookmark) : BookmarkRecord :=
  ⟨b.id, some b.uri, some b.name, some b.description, b.createdAt⟩

/-- Bookmark.fromJSON: `new Bookmark(Uri.parse(data.uri), data.name,
data.description)` — throwing when `uri` is absent — then the original `id`
and `createdAt` are written over the freshly generated ones (the discarded
fresh id never escapes, so the constructor's `now`/`rand` draw is dropped
from the model). -/
def Bookmark.fromJSON (data : BookmarkRecord) : Option Bookmark :=
  match data.uri with
  | none => none
  | some u =>
    some { id := data.id
           uri := u
           name := match data.name with
             | some n => if n = "" then basename (fsPath u) else n
             | none => basename (fsPath u)
           description := match data.description with
             | some d => d
             | none => ""
           createdAt := data.createdAt }

mutual

/-- BookmarkGroup.toJSON: recursive structural serialization; `parent` is
not serialized. -/
def BookmarkGroup.toJSON : BookmarkGroup → GroupRecord
  | .mk i n d bks gs _ t =>
    .mk i n (some d) (some (bks.map Bookmark.toJSON))
      (some (BookmarkGroup.toJSONList gs)) t

def BookmarkGroup.toJSONList : List BookmarkGroup → List GroupRecord
  | [] => []
  | g :: gs => BookmarkGroup.toJSON g :: BookmarkGroup.toJSONList gs

end

mutual

/-- BookmarkGroup.fromJSON: constructor with the record's name/description,
then id/createdAt restored, then `data.bookmarks.map(Bookmark.fromJSON)`
and `data.groups.map(fromJSON)` — any throw inside makes the whole record
fail — and each reconstructed child's `parent` is set to this group. -/
def BookmarkGroup.fromJSON : GroupRecord → Option BookmarkGroup
  | .mk i n d bks gs t =>
    match bks with
    | none => none
    | some bkRecs =>
      match bkRecs.mapM Bookmark.fromJSON with
      | none => none
      | some bs =>
        match gs with
        | none => none
        | some gRecs =>
          match BookmarkGroup.fromJSONList gRecs with
          | none => none
          | some cs =>
            some (.mk i n (match d with | some d' => d' | none => "") bs
              (cs.map (fun c => c.withParent (some i))) none t)

def BookmarkGroup.fromJSONList : List GroupRecord → Option (List BookmarkGroup)
  | [] => some []
  | r :: rs =>
    match BookmarkGroup.fromJSON r with
    | none => none
    | some g => (BookmarkGroup.fromJSONList rs).map (g :: ·)

end

/-- The persisted / exported / imported document shape
`{bookmarks: [...], groups: [...]}`.  A field is `none` when it is absent
or not an array (the code guards with `Array.isArray`). -/
structure StoredDoc where
  bookmarks : Option (List BookmarkRecord)
  groups : Option (List GroupRecord)

/-- The document written by BookmarkManager.saveState / exportToJSON. -/
def exportDoc (st : ManagerState) : StoredDoc :=
  ⟨some (st.bookmarks.map Bookmark.toJSON),
   some (BookmarkGroup.toJSONList st.groups)⟩

/-- BookmarkManager.importFromJSON.  The argument is the result of
`JSON.parse` (`none` models a parse failure, caught and returning false).
With `merge = false` the current forest is discarded first.  Each record is
deserialized under its own try/catch: failing records are skipped while the
rest import (filterMap).  On the parsed path the manager always fires and
persists and returns true. -/
def importFromJSON (doc : Option StoredDoc) (merge : Bool) (st : ManagerState) :
    ManagerState × Bool × List Ev :=
  match doc with
  | none => (st, false, [])
  | some d =>
    let st0 : ManagerState := if merge then st else ⟨[], []⟩
    let bs := match d.bookmarks with
      | some recs => st0.bookmarks ++ recs.filterMap Bookmark.fromJSON
      | none => st0.bookmarks
    let gs := match d.groups with
      | some recs => st0.groups ++ recs.filterMap BookmarkGroup.fromJSON
      | none => st0.groups
    (⟨bs, gs⟩, true, [.fire, .persist])

/-- BookmarkManager.loadState, applied to a state (the constructor calls it
on the empty forest).  `stored = none` models an absent document.  The two
collection assignments run in order under one try/catch: if the bookmarks
assignment throws nothing is assigned; if the groups assignment throws the
already-assigned bookmarks remain.  The boolean reports whether the failure
was logged and shown to the user. -/
def loadState (stored : Option StoredDoc) (st : ManagerState) : ManagerState × Bool :=
  match stored with
  | none => (st, false)
  | some data =>
    let step1 : ManagerState × Bool :=
      match data.bookmarks with
      | none => (st, true)
      | some recs =>
        match recs.mapM Bookmark.fromJSON with
        | none => (st, false)
        | some bs => (⟨bs, st.groups⟩, true)
    match step1 with
    | (st1, false) => (st1, true)
    | (st1, true) =>
      match data.groups with
      | none => (st1, false)
      | some recs =>
        match recs.mapM BookmarkGroup.fromJSON with
        | none => (st1, true)
        | some gs => (⟨st1.bookmarks, gs⟩, false)

/-- The manager constructor: empty forest, then loadState from the store. -/
def initManager (stored : Option StoredDoc) : ManagerState × Bool :=
  loadState stored ⟨[], []⟩

/-- The external editor collaborator, abstracted: whether opening a uri
succeeds (`vscode.workspace.openTextDocument` + `showTextDocument`), and
whether closing the tabs of a uri succeeds (the tab enumeration and
`tabGroups.close` calls of `closeAll` collapsed into one operation). -/
structure EditorOracle where
  openOk : String → Bool
  closeOk : String → Bool

/-- `await vscode.workspace.openTextDocument(uri)` followed by
`showTextDocument`: may throw. -/
def openTextDocument (o : EditorOracle) (uri : String) : Except String String :=
  if o.openOk uri then .ok uri else .error uri

/-- Bookmark.open: try to open the document; on any failure, show an error
message to the user and return undefined — the failure is caught, never
rethrown.  The result carries the editor (or `none`) and the error messages
shown. -/
def Bookmark.openBookmark (o : EditorOracle) (b : Bookmark) :
    Except String (Option String × List String) :=
  match openTextDocument o b.uri with
  | .ok doc => .ok (some doc, [])
  | .error _ => .ok (none, ["Failed to open bookmark: " ++ b.name])

/-- BookmarkGroup.openAll: sequentially open every bookmark of this group's
own list; a thrown failure would propagate and abort the rest. -/
def BookmarkGroup.openAll (o : EditorOracle) (g : BookmarkGroup) :
    Except String (List (Option String × List String)) :=
  g.bookmarks.mapM (Bookmark.openBookmark o)

/-- BookmarkGroup.closeAll: per bookmark, close its tabs inside a
try/catch — a failure is logged and the loop continues.  The result lists
one success flag per bookmark. -/
def BookmarkGroup.closeAll (o : EditorOracle) (g : BookmarkGroup) : List Bool :=
  g.bookmarks.map (fun b => o.closeOk b.uri)

/-- A creation call of the id-uniqueness experiment: `addBookmark` or
`createGroup`, with its nondeterministic `Date.now()` /
`Math.floor(Math.random()*1000)` draw made explicit. -/
inductive Op where
  | addB (uri : String) (name? description? : Option String)
         (groupId : Option String) (now rand : Nat) : Op
  | createG (name : String) (description? : Option String)
            (parentId : Option String) (now rand : Nat) : Op

/-- The id generated by a creation call. -/
def Op.genId : Op → String
  | .addB _ _ _ _ now rand => mkBookmarkId now rand
  | .createG _ _ _ now rand => mkGroupId now rand

/-- Apply a creation call to the manager state. -/
def applyOp (st : ManagerState) : Op → ManagerState
  | .addB uri n d gid now rand => (addBookmark st uri n d gid now rand).1
  | .createG n d pid now rand => (createGroup st n d pid now rand).1

/-- Run a sequence of creation calls from a state. -/
def applyOps (st : ManagerState) : List Op → ManagerState
  | [] => st
  | op :: ops => applyOps (applyOp st op) ops

/-- Id uniqueness across the whole forest at an instant: bookmark ids are
unique among all bookmarks, group ids among all groups. -/
def UniqueIds (st : ManagerState) : Prop :=
  ((getAllBookmarks st).map Bookmark.id).Nodup ∧
  ((getAllGroups st).map BookmarkGroup.id).Nodup

/-- Executable freshness of a whole run: at each step, the id the call will
generate does not occur in the current forest (in its own namespace). -/
def freshRunB : ManagerState → List Op → Bool
  | _, [] => true
  | st, op :: ops =>
    (match op with
     | .addB _ _ _ _ _ _ => !((getAllBookmarks st).map Bookmark.id).contains op.genId
     | .createG _ _ _ _ _ => !((getAllGroups st).map BookmarkGroup.id).contains op.genId)
    && freshRunB (applyOp st op) ops

@[simp] theorem BookmarkGroup.id_mk (i n d : String) (bks : List Bookmark)
    (gs : List BookmarkGroup) (p : Option String) (t : Nat) :
    (BookmarkGroup.mk i n d bks gs p t).id = i := rfl

@[simp] theorem BookmarkGroup.name_mk (i n d : String) (bks : List Bookmark)
    (gs : List BookmarkGroup) (p : Option String) (t : Nat) :
    (BookmarkGroup.mk i n d bks gs p t).name = n := rfl

@[simp] theorem BookmarkGroup.description_mk (i n d : String) (bks : List Bookmark)
    (gs : List BookmarkGroup) (p : Option String) (t : Nat) :
    (BookmarkGroup.mk i n d bks gs p t).description = d := rfl

@[simp] theorem BookmarkGroup.bookmarks_mk (i n d : String) (bks : List Bookmark)
    (gs : List BookmarkGroup) (p : Option String) (t : Nat) :
    (BookmarkGroup.mk i n d bks gs p t).bookmarks = bks := rfl

@[simp] theorem BookmarkGroup.groups_mk (i n d : String) (bks : List Bookmark)
    (gs : List BookmarkGroup) (p : Option String) (t : Nat) :
    (BookmarkGroup.mk i n d bks gs p t).groups = gs := rfl

@[simp] theorem BookmarkGroup.parent_mk (i n d : String) (bks : List Bookmark)
    (gs : List BookmarkGroup) (p : Option String) (t : Nat) :
    (BookmarkGroup.mk i n d bks gs p t).parent = p := rfl

@[simp] theorem BookmarkGroup.createdAt_mk (i n d : String) (bks : List Bookmark)
    (gs : List BookmarkGroup) (p : Option String) (t : Nat) :
    (BookmarkGroup.mk i n d bks gs p t).createdAt = t := rfl

theorem BookmarkGroup.eta (g : BookmarkGroup) :
    BookmarkGroup.mk g.id g.name g.description g.bookmarks g.groups g.parent g.createdAt = g := by
  cases g with
  | mk i n d bks gs p t => rfl

theorem scanShallow_isSome_iff (upd : BookmarkGroup → BookmarkGroup × Bool)
    (gs : List BookmarkGroup) :
    (scanShallow upd gs).isSome ↔ ∃ g ∈ gs, (upd g).2 = true := by
  induction gs with
  | nil => simp [scanShallow]
  | cons g rest ih =>
    rw [scanShallow]
    rcases h : upd g with ⟨g', b⟩
    cases b with
    | true =>
      simp only [Option.isSome_some, true_iff]
      exact ⟨g, List.mem_cons_self _ _, by rw [h]⟩
    | false =>
      have hmap : (Option.map (fun x => g :: x) (scanShallow upd rest)).isSome
          = (scanShallow upd rest).isSome := by
        cases scanShallow upd rest <;> rfl
      rw [hmap, ih]
      constructor
      · rintro ⟨x, hx, hb⟩
        exact ⟨x, List.mem_cons_of_mem _ hx, hb⟩
      · rintro ⟨x, hx, hb⟩
        rcases List.mem_cons.mp hx with rfl | hx
        · rw [h] at hb; simp at hb
        · exact ⟨x, hx, hb⟩

theorem scanShallow_skip_left (upd : BookmarkGroup → BookmarkGroup × Bool)
    (l gs : List BookmarkGroup) (hl : ∀ x ∈ l, (upd x).2 = false) :
    scanShallow upd (l ++ gs) = (scanShallow upd gs).map (l ++ ·) := by
  induction l with
  | nil => simp
  | cons x rest ih =>
    have hx : (upd x).2 = false := hl x (List.mem_cons_self _ _)
    rw [List.cons_append, scanShallow]
    rcases h : upd x with ⟨x', b⟩
    cases b with
    | true => rw [h] at hx; simp at hx
    | false =>
      rw [ih (fun y hy => hl y (List.mem_cons_of_mem _ hy))]
      cases scanShallow upd gs <;> simp

theorem scanShallow_hit (upd : BookmarkGroup → BookmarkGroup × Bool)
    (l gs : List BookmarkGroup) (g : BookmarkGroup)
    (hl : ∀ x ∈ l, (upd x).2 = false) (hg : (upd g).2 = true) :
    scanShallow upd (l ++ g :: gs) = some (l ++ (upd g).1 :: gs) := by
  rw [scanShallow_skip_left upd l _ hl, scanShallow]
  rcases h : upd g with ⟨g', b⟩
  cases b with
  | true => simp
  | false => rw [h] at hg; simp at hg

theorem firstSome_eq_none_iff (f : α → Option β) (l : List α) :
    firstSome f l = none ↔ ∀ a ∈ l, f a = none := by
  induction l with
  | nil => simp [firstSome]
  | cons a rest ih =>
    rw [firstSome]
    rcases h : f a with _ | b
    · rw [ih]
      constructor
      · intro hall x hx
        rcases List.mem_cons.mp hx with rfl | hx
        · exact h
        · exact hall x hx
      · intro hall x hx
        exact hall x (List.mem_cons_of_mem _ hx)
    · simp only []
      constructor
      · intro hc; exact absurd hc (by simp)
      · intro hall
        have := hall a (List.mem_cons_self _ _)
        rw [h] at this; exact absurd this (by simp)

theorem firstSome_skip_left (f : α → Option β) (l₁ l₂ : List α)
    (h : ∀ a ∈ l₁, f a = none) :
    firstSome f (l₁ ++ l₂) = firstSome f l₂ := by
  induction l₁ with
  | nil => simp
  | cons a rest ih =>
    have ha : f a = none := h a (List.mem_cons_self _ _)
    rw [List.cons_append, firstSome, ha]
    exact ih (fun x hx => h x (List.mem_cons_of_mem _ hx))

theorem firstSome_cons_some (f : α → Option β) (a : α) (l : List α) (b : β)
    (h : f a = some b) : firstSome f (a :: l) = some b := by
  rw [firstSome, h]

theorem firstSome_isSome_iff (f : α → Option β) (l : List α) :
    (firstSome f l).isSome ↔ ∃ a ∈ l, (f a).isSome := by
  induction l with
  | nil => simp [firstSome]
  | cons a rest ih =>
    rw [firstSome]
    rcases h : f a with _ | b
    · rw [ih]
      constructor
      · rintro ⟨x, hx, hb⟩
        exact ⟨x, List.mem_cons_of_mem _ hx, hb⟩
      · rintro ⟨x, hx, hb⟩
        rcases List.mem_cons.mp hx with rfl | hx
        · rw [h] at hb; simp at hb
        · exact ⟨x, hx, hb⟩
    · simp only [Option.isSome_some, true_iff]
      exact ⟨a, List.mem_cons_self _ _, by rw [h]; rfl⟩

mutual

theorem scanRec_isSome (upd : BookmarkGroup → BookmarkGroup × Bool) :
    ∀ g : BookmarkGroup, (scanRec upd g).isSome ↔ ∃ x ∈ subGroups g, (upd x).2 = true
  | .mk i n d bks gs p t => by
    rw [scanRec, subGroups]
    rcases hsh : scanShallow upd gs with _ | gs'
    · have hnone : ∀ x ∈ gs, (upd x).2 = false := by
        intro x hx
        by_contra hc
        have hxt : (upd x).2 = true := by revert hc; cases (upd x).2 <;> simp
        have hs : (scanShallow upd gs).isSome :=
          (scanShallow_isSome_iff upd gs).mpr ⟨x, hx, hxt⟩
        rw [hsh] at hs; simp at hs
      have hmap : (Option.map (fun gs' => BookmarkGroup.mk i n d bks gs' p t)
          (scanRecList upd gs)).isSome = (scanRecList upd gs).isSome := by
        cases scanRecList upd gs <;> rfl
      rw [hmap, scanRecList_isSome upd gs]
      constructor
      · rintro ⟨x, hx, hb⟩
        exact ⟨x, List.mem_append.mpr (Or.inr hx), hb⟩
      · rintro ⟨x, hx, hb⟩
        rcases List.mem_append.mp hx with h1 | h2
        · rw [hnone x h1] at hb; exact absurd hb (by simp)
        · exact ⟨x, h2, hb⟩
    · simp only [Option.isSome_some, true_iff]
      have hs : (scanShallow upd gs).isSome := by rw [hsh]; rfl
      rcases (scanShallow_isSome_iff upd gs).mp hs with ⟨x, hx, hb⟩
      exact ⟨x, List.mem_append.mpr (Or.inl hx), hb⟩

theorem scanRecList_isSome (upd : BookmarkGroup → BookmarkGroup × Bool) :
    ∀ gs : List BookmarkGroup,
      (scanRecList upd gs).isSome ↔ ∃ x ∈ subGroupsList gs, (upd x).2 = true
  | [] => by simp [scanRecList, subGroupsList]
  | g :: rest => by
    rw [scanRecList, subGroupsList]
    rcases hg : scanRec upd g with _ | g'
    · have hmap : (Option.map (fun x => g :: x) (scanRecList upd rest)).isSome
          = (scanRecList upd rest).isSome := by
        cases scanRecList upd rest <;> rfl
      rw [hmap, scanRecList_isSome upd rest]
      have hgn : ¬ ∃ x ∈ subGroups g, (upd x).2 = true := by
        rw [← scanRec_isSome upd g, hg]; simp
      constructor
      · rintro ⟨x, hx, hb⟩
        exact ⟨x, List.mem_append.mpr (Or.inr hx), hb⟩
      · rintro ⟨x, hx, hb⟩
        rcases List.mem_append.mp hx with h1 | h2
        · exact absurd ⟨x, h1, hb⟩ hgn
        · exact ⟨x, h2, hb⟩
    · simp only [Option.isSome_some, true_iff]
      have hs : (scanRec upd g).isSome := by rw [hg]; rfl
      rcases (scanRec_isSome upd g).mp hs with ⟨x, hx, hb⟩
      exact ⟨x, List.mem_append.mpr (Or.inl hx), hb⟩

end

theorem visitUpdateForest_isSome_iff (upd : BookmarkGroup → BookmarkGroup × Bool)
    (gs : List BookmarkGroup) :
    (visitUpdateForest upd gs).isSome ↔ ∃ x ∈ allGroupsL gs, (upd x).2 = true := by
  rw [visitUpdateForest, allGroupsL]
  rcases hsh : scanShallow upd gs with _ | gs'
  · rw [scanRecList_isSome upd gs]
    have hnone : ∀ x ∈ gs, (upd x).2 = false := by
      intro x hx
      by_contra hc
      have hxt : (upd x).2 = true := by revert hc; cases (upd x).2 <;> simp
      have hs : (scanShallow upd gs).isSome :=
        (scanShallow_isSome_iff upd gs).mpr ⟨x, hx, hxt⟩
      rw [hsh] at hs; simp at hs
    constructor
    · rintro ⟨x, hx, hb⟩
      exact ⟨x, List.mem_append.mpr (Or.inr hx), hb⟩
    · rintro ⟨x, hx, hb⟩
      rcases List.mem_append.mp hx with h1 | h2
      · rw [hnone x h1] at hb; exact absurd hb (by simp)
      · exact ⟨x, h2, hb⟩
  · simp only [Option.isSome_some, true_iff]
    have hs : (scanShallow upd gs).isSome := by rw [hsh]; rfl
    rcases (scanShallow_isSome_iff upd gs).mp hs with ⟨x, hx, hb⟩
    exact ⟨x, List.mem_append.mpr (Or.inl hx), hb⟩

theorem subGroups_sub_of_mem (x : BookmarkGroup) (gs : List BookmarkGroup)
    (hx : x ∈ gs) : ∀ y ∈ subGroups x, y ∈ subGroupsList gs := by
  induction gs with
  | nil => simp at hx
  | cons g rest ih =>
    intro y hy
    rw [subGroupsList]
    rcases List.mem_cons.mp hx with rfl | hx'
    · exact List.mem_append.mpr (Or.inl hy)
    · exact List.mem_append.mpr (Or.inr (ih hx' y hy))

mutual

theorem subGroups_closed (x : BookmarkGroup) :
    ∀ g : BookmarkGroup, x ∈ subGroups g → ∀ y ∈ subGroups x, y ∈ subGroups g
  | .mk i n d bks gs p t => by
    intro hx y hy
    rw [subGroups] at hx ⊢
    rcases List.mem_append.mp hx with h1 | h2
    · exact List.mem_append.mpr (Or.inr (subGroups_sub_of_mem x gs h1 y hy))
    · exact List.mem_append.mpr (Or.inr (subGroups_closed_list x gs h2 y hy))

theorem subGroups_closed_list (x : BookmarkGroup) :
    ∀ gs : List BookmarkGroup, x ∈ subGroupsList gs →
      ∀ y ∈ subGroups x, y ∈ subGroupsList gs
  | [] => by intro hx; rw [subGroupsList] at hx; simp at hx
  | g :: rest => by
    intro hx y hy
    rw [subGroupsList] at hx ⊢
    rcases List.mem_append.mp hx with h1 | h2
    · exact List.mem_append.mpr (Or.inl (subGroups_closed x g h1 y hy))
    · exact List.mem_append.mpr (Or.inr (subGroups_closed_list x rest h2 y hy))

end

/-- A direct child of any group in the forest listing is itself in the
listing. -/
theorem child_mem_allGroupsL (gs : List BookmarkGroup) (p c : BookmarkGroup)
    (hp : p ∈ allGroupsL gs) (hc : c ∈ p.groups) : c ∈ allGroupsL gs := by
  have hcs : c ∈ subGroups p := by
    cases p with
    | mk i n d bks pgs par t =>
      rw [subGroups]
      exact List.mem_append.mpr (Or.inl hc)
  rw [allGroupsL] at hp ⊢
  rcases List.mem_append.mp hp with h1 | h2
  · exact List.mem_append.mpr (Or.inr (subGroups_sub_of_mem p gs h1 c hcs))
  · exact List.mem_append.mpr (Or.inr (subGroups_closed_list p gs h2 c hcs))

mutual

theorem parent_exists (x : BookmarkGroup) :
    ∀ g : BookmarkGroup, x ∈ subGroups g →
      ∃ p, (p = g ∨ p ∈ subGroups g) ∧ x ∈ p.groups
  | .mk i n d bks gs par t => by
    intro hx
    rw [subGroups] at hx
    rcases List.mem_append.mp hx with h1 | h2
    · exact ⟨.mk i n d bks gs par t, Or.inl rfl, h1⟩
    · rcases parent_exists_list x gs h2 with ⟨p, hp, hxp⟩
      refine ⟨p, Or.inr ?_, hxp⟩
      rw [subGroups]
      rcases hp with hp | hp
      · exact List.mem_append.mpr (Or.inl hp)
      · exact List.mem_append.mpr (Or.inr hp)

theorem parent_exists_list (x : BookmarkGroup) :
    ∀ gs : List BookmarkGroup, x ∈ subGroupsList gs →
      ∃ p, (p ∈ gs ∨ p ∈ subGroupsList gs) ∧ x ∈ p.groups
  | [] => by intro hx; rw [subGroupsList] at hx; simp at hx
  | g :: rest => by
    intro hx
    rw [subGroupsList] at hx
    rcases List.mem_append.mp hx with h1 | h2
    · rcases parent_exists x g h1 with ⟨p, hp, hxp⟩
      rcases hp with rfl | hp
      · exact ⟨p, Or.inl (List.mem_cons_self _ _), hxp⟩
      · refine ⟨p, Or.inr ?_, hxp⟩
        rw [subGroupsList]
        exact List.mem_append.mpr (Or.inl hp)
    · rcases parent_exists_list x rest h2 with ⟨p, hp, hxp⟩
      rcases hp with hp | hp
      · exact ⟨p, Or.inl (List.mem_cons_of_mem _ hp), hxp⟩
      · refine ⟨p, Or.inr ?_, hxp⟩
        rw [subGroupsList]
        exact List.mem_append.mpr (Or.inr hp)

end

theorem filter_length_beq_false_iff {α : Type _} (l : List α) (q : α → Bool) :
    ((l.filter (fun x => !(q x))).length == l.length) = false ↔ ∃ x ∈ l, q x = true := by
  constructor
  · intro h
    by_contra hc
    push_neg at hc
    have hall : ∀ x ∈ l, (!(q x)) = true := by
      intro x hx
      have := hc x hx
      revert this; cases q x <;> simp
    rw [List.filter_eq_self.mpr hall] at h
    simp at h
  · rintro ⟨x, hx, hq⟩
    have hlt : (l.filter (fun x => !(q x))).length < l.length := by
      rw [List.length_filter_lt_length_iff_exists]
      exact ⟨x, hx, by rw [hq]; simp⟩
    have hne : (l.filter (fun x => !(q x))).length ≠ l.length := Nat.ne_of_lt hlt
    cases h : ((l.filter (fun x => !(q x))).length == l.length) with
    | false => rfl
    | true => exact absurd (beq_iff_eq.mp h) hne

theorem groupRemoveGroup_snd_iff (g : BookmarkGroup) (id : String) :
    (BookmarkGroup.removeGroup id g).2 = true ↔ ∃ c ∈ g.groups, c.id = id := by
  cases g with
  | mk i n d bks gs p t =>
    rw [BookmarkGroup.removeGroup]
    simp only [BookmarkGroup.groups_mk]
    constructor
    · intro h
      have hf : ((gs.filter (fun x => !(x.id == id))).length == gs.length) = false := by
        revert h; cases hx : ((gs.filter (fun x => !(x.id == id))).length == gs.length) <;> simp
      rcases (filter_length_beq_false_iff gs (fun x => x.id == id)).mp hf with ⟨c, hc, hcid⟩
      exact ⟨c, hc, by exact beq_iff_eq.mp hcid⟩
    · rintro ⟨c, hc, hcid⟩
      have hf : ((gs.filter (fun x => !(x.id == id))).length == gs.length) = false :=
        (filter_length_beq_false_iff gs (fun x => x.id == id)).mpr
          ⟨c, hc, beq_iff_eq.mpr hcid⟩
      rw [hf]
      rfl

theorem groupRemoveBookmark_snd_iff (g : BookmarkGroup) (id : String) :
    (BookmarkGroup.removeBookmark id g).2 = true ↔ ∃ b ∈ g.bookmarks, b.id = id := by
  cases g with
  | mk i n d bks gs p t =>
    rw [BookmarkGroup.removeBookmark]
    simp only [BookmarkGroup.bookmarks_mk]
    constructor
    · intro h
      have hf : ((bks.filter (fun x => !(x.id == id))).length == bks.length) = false := by
        revert h; cases hx : ((bks.filter (fun x => !(x.id == id))).length == bks.length) <;> simp
      rcases (filter_length_beq_false_iff bks (fun x => x.id == id)).mp hf with ⟨b, hb, hbid⟩
      exact ⟨b, hb, by exact beq_iff_eq.mp hbid⟩
    · rintro ⟨b, hb, hbid⟩
      have hf : ((bks.filter (fun x => !(x.id == id))).length == bks.length) = false :=
        (filter_length_beq_false_iff bks (fun x => x.id == id)).mpr
          ⟨b, hb, beq_iff_eq.mpr hbid⟩
      rw [hf]
      rfl

theorem removeGroup_removed_iff (st : ManagerState) (id : String) :
    (removeGroup st id).2.1 = true ↔ id ∈ (getAllGroups st).map BookmarkGroup.id := by
  simp only [removeGroup]
  cases hcond : ((st.groups.filter (fun g => !(g.id == id))).length == st.groups.length) with
  | false =>
    simp only [hcond, Bool.not_false]
    simp only [if_true]
    rcases (filter_length_beq_false_iff st.groups (fun g => g.id == id)).mp hcond with
      ⟨x, hx, hid⟩
    exact iff_of_true trivial
      (List.mem_map.mpr ⟨x, List.mem_append.mpr (Or.inl hx), beq_iff_eq.mp hid⟩)
  | true =>
    have hsame : st.groups.filter (fun g => !(g.id == id)) = st.groups :=
      (List.filter_sublist _).eq_of_length (beq_iff_eq.mp hcond)
    simp only [hcond, Bool.not_true, hsame]
    rw [if_neg (by simp : ¬(false = true))]
    cases hv : visitUpdateForest (BookmarkGroup.removeGroup id) st.groups with
    | some gs' =>
      have hiss : (visitUpdateForest (BookmarkGroup.removeGroup id) st.groups).isSome := by
        rw [hv]; rfl
      rcases (visitUpdateForest_isSome_iff _ _).mp hiss with ⟨x, hx, hsnd⟩
      rcases (groupRemoveGroup_snd_iff x id).mp hsnd with ⟨c, hc, hcid⟩
      exact iff_of_true rfl
        (List.mem_map.mpr ⟨c, child_mem_allGroupsL st.groups x c hx hc, hcid⟩)
    | none =>
      refine iff_of_false (by simp) ?_
      intro hmem
      rcases List.mem_map.mp hmem with ⟨x, hx, hxid⟩
      rcases List.mem_append.mp hx with hxr | hxs
      · have hfb : ((st.groups.filter (fun g => !(g.id == id))).length == st.groups.length) = false :=
          (filter_length_beq_false_iff st.groups (fun g => g.id == id)).mpr
            ⟨x, hxr, beq_iff_eq.mpr hxid⟩
        rw [hcond] at hfb
        exact absurd hfb (by simp)
      · rcases parent_exists_list x st.groups hxs with ⟨p, hp, hxp⟩
        have hpall : p ∈ allGroupsL st.groups := by
          rw [allGroupsL]
          rcases hp with hp | hp
          · exact List.mem_append.mpr (Or.inl hp)
          · exact List.mem_append.mpr (Or.inr hp)
        have hsnd : (BookmarkGroup.removeGroup id p).2 = true :=
          (groupRemoveGroup_snd_iff p id).mpr ⟨x, hxp, hxid⟩
        have hiss : (visitUpdateForest (BookmarkGroup.removeGroup id) st.groups).isSome :=
          (visitUpdateForest_isSome_iff _ _).mpr ⟨p, hpall, hsnd⟩
        rw [hv] at hiss
        simp at hiss

theorem subGroups_sub_allGroupsL (gs : List BookmarkGroup) (c : BookmarkGroup)
    (hc : c ∈ allGroupsL gs) : ∀ y ∈ subGroups c, y ∈ allGroupsL gs := by
  intro y hy
  rw [allGroupsL] at hc ⊢
  rcases List.mem_append.mp hc with h1 | h2
  · exact List.mem_append.mpr (Or.inr (subGroups_sub_of_mem c gs h1 y hy))
  · exact List.mem_append.mpr (Or.inr (subGroups_closed_list c gs h2 y hy))

/-- The groups of the forest nested more than one level deep: for each root,
for each direct child of that root, everything strictly below that child. -/
def nestedTwoDeep (st : ManagerState) : List BookmarkGroup :=
  st.groups.flatMap (fun r => r.groups.flatMap (fun c => allGroupsL c.groups))

theorem nestedTwoDeep_sub (st : ManagerState) (g : BookmarkGroup)
    (h : g ∈ nestedTwoDeep st) : g ∈ getAllGroups st := by
  rw [nestedTwoDeep] at h
  rcases List.mem_flatMap.mp h with ⟨r, hr, hg⟩
  rcases List.mem_flatMap.mp hg with ⟨c, hc, hgc⟩
  have hrall : r ∈ allGroupsL st.groups := by
    rw [allGroupsL]; exact List.mem_append.mpr (Or.inl hr)
  have hcall : c ∈ allGroupsL st.groups := child_mem_allGroupsL st.groups r c hrall hc
  rw [allGroupsL] at hgc
  rcases List.mem_append.mp hgc with h1 | h2
  · exact child_mem_allGroupsL st.groups c g hcall h1
  · have hsub : g ∈ subGroups c := by
      cases c with
      | mk i n d bks cgs p t =>
        rw [subGroups]
        exact List.mem_append.mpr (Or.inr h2)
    exact subGroups_sub_allGroupsL st.groups c hcall g hsub

/-- C1, counterexample to the claim as stated: there is no forest with a
group nested more than one level deep on which `removeGroup` of that
group's id returns false and leaves the group in the forest.  The loop over
`getAllGroups()` visits every group of the forest, and every nested group is
a direct child of a visited group, so the claimed failing forest cannot
exist. -/
theorem C1_counterexample :
    ¬ ∃ (st : ManagerState) (g : BookmarkGroup),
        g ∈ nestedTwoDeep st ∧ (removeGroup st g.id).2.1 = false ∧
        g ∈ getAllGroups (removeGroup st g.id).1 := by
  rintro ⟨st, g, hdeep, hfalse, _⟩
  have hmem : g ∈ getAllGroups st := nestedTwoDeep_sub st g hdeep
  have htrue : (removeGroup st g.id).2.1 = true :=
    (removeGroup_removed_iff st g.id).mpr (List.mem_map.mpr ⟨g, hmem, rfl⟩)
  rw [hfalse] at htrue
  exact absurd htrue (by simp)

/-- C1, amended: `removeGroup(id)` searches root groups first, then every
group's direct children across the forest; because the loop enumerates all
groups of the forest (`getAllGroups`), every group — at any nesting depth —
is either a root or a direct child of an enumerated group, so `removeGroup`
returns true exactly when a group with the given id is present in the
forest.  No group is unreachable by this path. -/
theorem C1_removeGroup_any_depth (st : ManagerState) (id : String) :
    (removeGroup st id).2.1 = true ↔ id ∈ (getAllGroups st).map BookmarkGroup.id :=
  removeGroup_removed_iff st id

theorem allGroupsL_perm_preOrder : ∀ gs : List BookmarkGroup, (allGroupsL gs).Perm (preOrderL gs)
  | [] => by
    rw [allGroupsL, subGroupsList, preOrderL]
    simp
  | .mk i n d bks cgs p t :: rest => by
    have h1 := allGroupsL_perm_preOrder cgs
    have h2 := allGroupsL_perm_preOrder rest
    rw [allGroupsL] at h1 h2
    rw [allGroupsL, subGroupsList, preOrderL, preOrderG, subGroups]
    rw [List.cons_append]
    refine List.Perm.cons _ ?_
    exact (List.perm_append_comm_assoc _ _ _).trans (List.Perm.append h1 h2)

/-- Concrete forest for the `getAllGroups` ordering counterexample: one root
R with children A and B, and A has a child X. -/
def c4X : BookmarkGroup := .mk "X" "X" "" [] [] (some "A") 0

def c4A : BookmarkGroup := .mk "A" "A" "" [] [c4X] (some "R") 0

def c4B : BookmarkGroup := .mk "B" "B" "" [] [] (some "R") 0

def c4R : BookmarkGroup := .mk "R" "R" "" [] [c4A, c4B] none 0

def c4St : ManagerState := ⟨[], [c4R]⟩

/-- C4, counterexample to the claim as stated: on the forest with root R,
children A and B, and grandchild X under A, `getAllGroups` returns
[R, A, B, X] — sibling B before A's descendant X — while pre-order is
[R, A, X, B]; the traversal is not pre-order. -/
theorem C4_counterexample :
    (getAllGroups c4St).map BookmarkGroup.id = ["R", "A", "B", "X"] ∧
    (preOrderL c4St.groups).map BookmarkGroup.id = ["R", "A", "X", "B"] ∧
    getAllGroups c4St ≠ preOrderL c4St.groups := by
  refine ⟨rfl, rfl, ?_⟩
  intro h
  have hm := congrArg (List.map BookmarkGroup.id) h
  have h1 : (getAllGroups c4St).map BookmarkGroup.id = ["R", "A", "B", "X"] := rfl
  have h2 : (preOrderL c4St.groups).map BookmarkGroup.id = ["R", "A", "X", "B"] := rfl
  rw [h1, h2] at hm
  exact absurd hm (by decide)

/-- C4, amended: `getAllGroups` (the spec's `listAllGroups`) returns every
group in the forest — the root groups and all their descendants — exactly
once, as a permutation of the pre-order listing; but the order is not
pre-order: all groups at one level of a subtree are listed before any of
their descendants. -/
theorem C4_getAllGroups_perm_preOrder (st : ManagerState) :
    (getAllGroups st).Perm (preOrderL st.groups) :=
  allGroupsL_perm_preOrder st.groups

/-- Pure per-bookmark outcome of `Bookmark.open`: the opened editor (or
`none` on failure) together with the error messages shown to the user. -/
def openOne (o : EditorOracle) (b : Bookmark) : Option String × List String :=
  if o.openOk b.uri then (some b.uri, []) else (none, ["Failed to open bookmark: " ++ b.name])

theorem openBookmark_eq_ok (o : EditorOracle) (b : Bookmark) :
    Bookmark.openBookmark o b = .ok (openOne o b) := by
  rw [Bookmark.openBookmark, openTextDocument, openOne]
  cases h : o.openOk b.uri <;> simp

/-- Concrete fixture for the openAll counterexample: a group with two
bookmarks whose first uri fails to open while the second opens fine. -/
def c7b1 : Bookmark := ⟨"b1", "file:///u1", "one", "", 0⟩

def c7b2 : Bookmark := ⟨"b2", "file:///u2", "two", "", 0⟩

def c7g : BookmarkGroup := .mk "g" "g" "" [c7b1, c7b2] [] none 0

def c7o : EditorOracle := ⟨fun u => !(u == "file:///u1"), fun _ => true⟩

/-- C7, counterexample to the claim as stated: with the first bookmark's
open failing, `openAll` does not abort — it returns successfully with the
second bookmark opened; the failure is swallowed inside `Bookmark.open`
(which reports and returns undefined), so nothing propagates out of
`openAll` and the remaining bookmarks are still opened. -/
theorem C7_counterexample :
    BookmarkGroup.openAll c7o c7g =
      .ok [(none, ["Failed to open bookmark: one"]), (some "file:///u2", [])] ∧
    ∀ e, BookmarkGroup.openAll c7o c7g ≠ .error e := by
  constructor
  · rfl
  · intro e h
    rw [show BookmarkGroup.openAll c7o c7g =
      .ok [(none, ["Failed to open bookmark: one"]), (some "file:///u2", [])] from rfl] at h
    exact absurd h (by simp)

/-- C7, amended: `Bookmark.open` on failure reports to the user and returns
an empty result without throwing; because the failure is caught inside
`open` itself, `openAll` never aborts — every bookmark of the group is
attempted, in order, regardless of earlier failures, and no failure
propagates out of `openAll` (the same continue-past-failure outcome as
`closeAll`, achieved one level lower). -/
theorem C7_openAll_never_aborts (o : EditorOracle) (g : BookmarkGroup) :
    (∀ b : Bookmark, Bookmark.openBookmark o b = .ok (openOne o b)) ∧
    BookmarkGroup.openAll o g = .ok (g.bookmarks.map (openOne o)) ∧
    BookmarkGroup.closeAll o g = g.bookmarks.map (fun b => o.closeOk b.uri) := by
  refine ⟨openBookmark_eq_ok o, ?_, rfl⟩
  rw [BookmarkGroup.openAll]
  induction g.bookmarks with
  | nil => rfl
  | cons b bs ih =>
    rw [List.mapM_cons, openBookmark_eq_ok o b]
    rw [List.map_cons]
    rw [show ∀ (x : Option String × List String)
        (rest : Except String (List (Option String × List String))),
        (Except.ok x >>= fun y => rest >>= fun ys => pure (y :: ys)) =
          (rest >>= fun ys => Except.ok (x :: ys)) from fun x rest => rfl]
    rw [ih]
    rfl

/-- C5, amended: `restore` never throws out of the manager and reports a
deserialization failure.  On an absent document the forest is left empty
(silently).  If the bookmarks collection fails to deserialize, nothing has
been assigned and the forest is left empty, with the failure reported.
But when the root bookmarks deserialize successfully and the groups
collection then fails, the already-assigned bookmarks remain: the manager is
left with a partially loaded forest, not an empty one, with the failure
reported. -/
theorem C5_restore_behaviour :
    (initManager none = (⟨[], []⟩, false)) ∧
    (∀ (d : StoredDoc) (brs : List BookmarkRecord), d.bookmarks = some brs →
        brs.mapM Bookmark.fromJSON = none →
        initManager (some d) = (⟨[], []⟩, true)) ∧
    (∀ (d : StoredDoc) (brs : List BookmarkRecord) (bs : List Bookmark)
        (grs : List GroupRecord), d.bookmarks = some brs →
        brs.mapM Bookmark.fromJSON = some bs →
        d.groups = some grs →
        grs.mapM BookmarkGroup.fromJSON = none →
        initManager (some d) = (⟨bs, []⟩, true)) := by
  refine ⟨rfl, ?_, ?_⟩
  · intro d brs hb hm
    rw [initManager, loadState, hb]
    simp only [hm]
  · intro d brs bs grs hb hm hg hgm
    rw [initManager, loadState, hb]
    simp only [hm, hg, hgm]

/-- Fixture: a well-formed bookmark record next to a group record whose
`bookmarks` field is absent, so the group collection fails to deserialize. -/
def c5good : BookmarkRecord := ⟨"b1", some "file:///a.txt", some "A", some "", 5⟩

def c5badG : GroupRecord := .mk "g1" "G" (some "") none (some []) 7

def c5doc : StoredDoc := ⟨some [c5good], some [c5badG]⟩

/-- Witness for C5: on the concrete malformed document the manager reports
the failure and is left holding the deserialized bookmark. -/
theorem C5_restore_behaviour_witness :
    initManager (some c5doc) = (⟨[⟨"b1", "file:///a.txt", "A", "", 5⟩], []⟩, true) :=
  C5_restore_behaviour.2.2 c5doc [c5good] [⟨"b1", "file:///a.txt", "A", "", 5⟩]
    [c5badG] rfl rfl rfl rfl

/-- C5, counterexample to the claim as stated: the document `c5doc` is
malformed — its groups collection fails to deserialize — yet after restore
the forest is not empty: the bookmark assigned before the failure remains
loaded (the failure is reported, as the claim says). -/
theorem C5_counterexample :
    ([c5badG].mapM BookmarkGroup.fromJSON = none) ∧
    (initManager (some c5doc)).2 = true ∧
    (initManager (some c5doc)).1.bookmarks = [⟨"b1", "file:///a.txt", "A", "", 5⟩] ∧
    (initManager (some c5doc)).1.bookmarks ≠ [] := by
  refine ⟨rfl, rfl, rfl, ?_⟩
  intro h
  rw [show (initManager (some c5doc)).1.bookmarks
      = [⟨"b1", "file:///a.txt", "A", "", 5⟩] from rfl] at h
  exact absurd h (by simp)

/-- C8, confirmed: importing a document holding one well-formed bookmark
record and one record missing its required `uri` field (with `merge =
false`) imports exactly the well-formed bookmark, skips the malformed
record, fires and persists, and reports overall success. -/
theorem C8_import_partial_skip (st : ManagerState) (good bad : BookmarkRecord)
    (gb : Bookmark) (hgood : Bookmark.fromJSON good = some gb)
    (hbad : bad.uri = none) :
    importFromJSON (some ⟨some [good, bad], none⟩) false st
      = (⟨[gb], []⟩, true, [.fire, .persist]) := by
  have hbadnone : Bookmark.fromJSON bad = none := by
    rw [Bookmark.fromJSON, hbad]
  rw [importFromJSON]
  simp only [List.filterMap_cons, hgood, hbadnone, List.filterMap_nil]
  rfl

/-- Fixtures for the import witness: a populated manager, a good record and
a record missing its uri. -/
def c8prev : ManagerState :=
  ⟨[⟨"old", "file:///old.txt", "old", "", 1⟩], [.mk "og" "og" "" [] [] none 1]⟩

def c8good : BookmarkRecord := ⟨"b9", some "file:///a/b.txt", some "B", some "d", 3⟩

def c8bad : BookmarkRecord := ⟨"b10", none, some "C", none, 4⟩

/-- Witness for C8 at concrete inputs. -/
theorem C8_import_partial_skip_witness :
    importFromJSON (some ⟨some [c8good, c8bad], none⟩) false c8prev
      = (⟨[⟨"b9", "file:///a/b.txt", "B", "d", 3⟩], []⟩, true, [.fire, .persist]) :=
  C8_import_partial_skip c8prev c8good c8bad ⟨"b9", "file:///a/b.txt", "B", "d", 3⟩ rfl rfl

/-- Reachability invariant on bookmark names established by every
constructor path in the code: `name` is only empty when the basename
fallback itself is empty (the constructor sets `name || basename`). -/
def nameWFb (b : Bookmark) : Bool :=
  !(b.name == "") || (basename (fsPath b.uri) == "")

mutual

/-- Reachability invariant on group trees: every bookmark name satisfies
`nameWFb` and every child's `parent` back-reference points at its owning
group — both maintained by `createGroup`/`addGroup`/`fromJSON`. -/
def groupWFb : BookmarkGroup → Bool
  | .mk i _ _ bks gs _ _ => bks.all nameWFb && groupWFListb i gs

def groupWFListb : String → List BookmarkGroup → Bool
  | _, [] => true
  | pid, c :: cs => (c.parent == some pid) && groupWFb c && groupWFListb pid cs

end

theorem withParent_withParent (g : BookmarkGroup) (p q : Option String) :
    (g.withParent p).withParent q = g.withParent q := by
  cases g with
  | mk i n d bks gs par t => rfl

theorem withParent_self (g : BookmarkGroup) (p : Option String)
    (h : g.parent = p) : g.withParent p = g := by
  cases g with
  | mk i n d bks gs par t =>
    rw [BookmarkGroup.withParent]
    rw [BookmarkGroup.parent_mk] at h
    rw [h]

theorem bookmark_roundtrip (b : Bookmark) (h : nameWFb b = true) :
    Bookmark.fromJSON (Bookmark.toJSON b) = some b := by
  cases b with
  | mk i u n d t =>
    rw [Bookmark.toJSON, Bookmark.fromJSON]
    simp only []
    rw [nameWFb] at h
    by_cases hn : n = ""
    · have hb : basename (fsPath u) = "" := by
        rw [hn] at h
        simp at h
        exact h
      rw [if_pos hn, hb, hn]
    · rw [if_neg hn]

theorem bookmarkList_roundtrip (bks : List Bookmark) (h : bks.all nameWFb = true) :
    (bks.map Bookmark.toJSON).mapM Bookmark.fromJSON = some bks := by
  induction bks with
  | nil => rfl
  | cons b rest ih =>
    rw [List.all_cons, Bool.and_eq_true] at h
    rw [List.map_cons, List.mapM_cons, bookmark_roundtrip b h.1, ih h.2]
    rfl

mutual

theorem group_roundtrip : ∀ g : BookmarkGroup, groupWFb g = true →
    BookmarkGroup.fromJSON (BookmarkGroup.toJSON g) = some (g.withParent none)
  | .mk i n d bks gs p t => by
    intro h
    rw [groupWFb, Bool.and_eq_true] at h
    rw [BookmarkGroup.toJSON, BookmarkGroup.fromJSON]
    rw [bookmarkList_roundtrip bks h.1]
    rcases groupList_roundtrip i gs h.2 with ⟨gs', hgs', hmap⟩
    dsimp only
    rw [hgs']
    dsimp only
    rw [hmap]
    rfl

theorem groupList_roundtrip : ∀ (pid : String) (gs : List BookmarkGroup),
    groupWFListb pid gs = true →
    ∃ gs', BookmarkGroup.fromJSONList (BookmarkGroup.toJSONList gs) = some gs' ∧
      gs'.map (fun c => c.withParent (some pid)) = gs
  | _, [] => by
    intro _
    exact ⟨[], rfl, rfl⟩
  | pid, c :: cs => by
    intro h
    rw [groupWFListb, Bool.and_eq_true, Bool.and_eq_true] at h
    rcases h with ⟨⟨hpar, hwf⟩, hrest⟩
    rcases groupList_roundtrip pid cs hrest with ⟨gs', hgs', hmap⟩
    rw [BookmarkGroup.toJSONList, BookmarkGroup.fromJSONList,
      group_roundtrip c hwf, hgs']
    refine ⟨c.withParent none :: gs', rfl, ?_⟩
    rw [List.map_cons, hmap, withParent_withParent]
    rw [withParent_self c (some pid) (beq_iff_eq.mp hpar)]

end

/-- C2, confirmed: deserialize after serialize reproduces an equivalent
tree.  For bookmarks the reconstruction is literally equal — same id, uri,
name, description and createdAt.  For group trees the reconstruction equals
the original up to the top-level group's own `parent` back-reference (which
`toJSON` does not serialize and the claim does not mention): ids, names,
descriptions, timestamps and the whole nesting shape are identical, and
each reconstructed child group's `parent` is set to its reconstructed
parent — which, by the parent-consistency invariant `groupWFb` that every
constructor path of the code maintains, is exactly the original child's
parent, so all nested groups are literally equal.  The hypotheses are the
reachability invariants: a bookmark's name is empty only when its basename
fallback is empty, and children's back-references point at their owners. -/
theorem C2_serialize_roundtrip (b : Bookmark) (g : BookmarkGroup)
    (hb : nameWFb b = true) (hg : groupWFb g = true) :
    Bookmark.fromJSON (Bookmark.toJSON b) = some b ∧
    BookmarkGroup.fromJSON (BookmarkGroup.toJSON g) = some (g.withParent none) :=
  ⟨bookmark_roundtrip b hb, group_roundtrip g hg⟩

/-- Fixtures for the round-trip witness: a bookmark and a two-level group
tree with consistent parent back-references. -/
def c2b : Bookmark := ⟨"bk1", "file:///x/y.txt", "y.txt", "notes", 11⟩

def c2child : BookmarkGroup :=
  .mk "g2" "child" "inner" [⟨"bk2", "file:///z.txt", "z", "", 12⟩] [] (some "g1") 12

def c2g : BookmarkGroup :=
  .mk "g1" "root" "top" [⟨"bk3", "file:///w.txt", "w", "", 13⟩] [c2child] none 13

/-- Witness for C2 at concrete inputs. -/
theorem C2_serialize_roundtrip_witness :
    Bookmark.fromJSON (Bookmark.toJSON c2b) = some c2b ∧
    BookmarkGroup.fromJSON (BookmarkGroup.toJSON c2g) = some (c2g.withParent none) :=
  C2_serialize_roundtrip c2b c2g rfl rfl

theorem gIdsL_append (a b : List BookmarkGroup) : gIdsL (a ++ b) = gIdsL a ++ gIdsL b := by
  induction a with
  | nil => rw [gIdsL]; simp
  | cons g rest ih =>
    rw [List.cons_append, gIdsL, gIdsL, ih, List.append_assoc]

theorem bksL_append (a b : List BookmarkGroup) : bksL (a ++ b) = bksL a ++ bksL b := by
  induction a with
  | nil => rw [bksL]; simp
  | cons g rest ih =>
    rw [List.cons_append, bksL, bksL, ih, List.append_assoc]

mutual

theorem bksG_eq_preOrder : ∀ g : BookmarkGroup,
    bksG g = (preOrderG g).flatMap BookmarkGroup.bookmarks
  | .mk i n d bks gs p t => by
    rw [bksG, preOrderG, List.flatMap_cons, BookmarkGroup.bookmarks_mk,
      bksL_eq_preOrder gs]

theorem bksL_eq_preOrder : ∀ gs : List BookmarkGroup,
    bksL gs = (preOrderL gs).flatMap BookmarkGroup.bookmarks
  | [] => by rw [bksL, preOrderL]; rfl
  | g :: rest => by
    rw [bksL, preOrderL, List.flatMap_append, bksG_eq_preOrder g,
      bksL_eq_preOrder rest]

end

mutual

theorem gIdsG_eq_preOrder : ∀ g : BookmarkGroup,
    gIdsG g = (preOrderG g).map BookmarkGroup.id
  | .mk i n d bks gs p t => by
    rw [gIdsG, preOrderG, List.map_cons, BookmarkGroup.id_mk, gIdsL_eq_preOrder gs]

theorem gIdsL_eq_preOrder : ∀ gs : List BookmarkGroup,
    gIdsL gs = (preOrderL gs).map BookmarkGroup.id
  | [] => by rw [gIdsL, preOrderL]; rfl
  | g :: rest => by
    rw [gIdsL, preOrderL, List.map_append, gIdsG_eq_preOrder g,
      gIdsL_eq_preOrder rest]

end

/-- Canonical (pre-order flattened) list of all bookmark ids of the forest. -/
def bkIds (st : ManagerState) : List String :=
  (st.bookmarks ++ bksL st.groups).map Bookmark.id

/-- Canonical (pre-order) list of all group ids of the forest. -/
def grIds (st : ManagerState) : List String :=
  gIdsL st.groups

theorem getAllBookmarks_ids_perm (st : ManagerState) :
    ((getAllBookmarks st).map Bookmark.id).Perm (bkIds st) := by
  rw [getAllBookmarks, bkIds, List.map_append, List.map_append]
  refine List.Perm.append (List.Perm.refl _) (List.Perm.map _ ?_)
  have h : (allGroupsL st.groups).flatMap BookmarkGroup.bookmarks
      |>.Perm ((preOrderL st.groups).flatMap BookmarkGroup.bookmarks) :=
    List.Perm.flatMap_right _ (allGroupsL_perm_preOrder st.groups)
  rw [← bksL_eq_preOrder] at h
  exact h

theorem getAllGroups_ids_perm (st : ManagerState) :
    ((getAllGroups st).map BookmarkGroup.id).Perm (grIds st) := by
  rw [grIds, gIdsL_eq_preOrder]
  exact List.Perm.map _ (allGroupsL_perm_preOrder st.groups)

theorem UniqueIds_iff (st : ManagerState) :
    UniqueIds st ↔ (bkIds st).Nodup ∧ (grIds st).Nodup := by
  rw [UniqueIds]
  rw [List.Perm.nodup_iff (getAllBookmarks_ids_perm st),
    List.Perm.nodup_iff (getAllGroups_ids_perm st)]

theorem scanShallow_eq_some (upd : BookmarkGroup → BookmarkGroup × Bool)
    (gs gs' : List BookmarkGroup) (h : scanShallow upd gs = some gs') :
    ∃ l x r, gs = l ++ x :: r ∧ (upd x).2 = true ∧ gs' = l ++ (upd x).1 :: r ∧
      ∀ y ∈ l, (upd y).2 = false := by
  induction gs generalizing gs' with
  | nil => rw [scanShallow] at h; exact absurd h (by simp)
  | cons g rest ih =>
    rw [scanShallow] at h
    rcases hu : upd g with ⟨g', b⟩
    rw [hu] at h
    cases b with
    | true =>
      refine ⟨[], g, rest, by simp, by rw [hu], ?_, by simp⟩
      rw [hu]
      simpa using h.symm
    | false =>
      rcases Option.map_eq_some'.mp h with ⟨gs2, hgs2, heq⟩
      rcases ih gs2 hgs2 with ⟨l, x, r, h1, h2, h3, h4⟩
      refine ⟨g :: l, x, r, by rw [h1, List.cons_append], h2,
        by rw [← heq, h3, List.cons_append], ?_⟩
      intro y hy
      rcases List.mem_cons.mp hy with rfl | hy'
      · rw [hu]
      · exact h4 y hy'

theorem addBookmark_gIdsG (b : Bookmark) (g : BookmarkGroup) :
    gIdsG (BookmarkGroup.addBookmark b g) = gIdsG g := by
  cases g with
  | mk i n d bks gs p t =>
    rw [BookmarkGroup.addBookmark]
    split <;> rfl

theorem addBookmark_bksG (b : Bookmark) (g : BookmarkGroup) :
    bksG (BookmarkGroup.addBookmark b g) = bksG g ∨
    (bksG g = g.bookmarks ++ bksL g.groups ∧
      bksG (BookmarkGroup.addBookmark b g) = g.bookmarks ++ b :: bksL g.groups) := by
  cases g with
  | mk i n d bks gs p t =>
    rw [BookmarkGroup.addBookmark]
    split
    · exact Or.inl rfl
    · refine Or.inr ⟨rfl, ?_⟩
      rw [BookmarkGroup.bookmarks_mk, BookmarkGroup.groups_mk, bksG,
        List.append_assoc, List.singleton_append]

theorem addGroup_gIdsG (c : BookmarkGroup) (g : BookmarkGroup) (hc : c.groups = []) :
    gIdsG (BookmarkGroup.addGroup c g) = gIdsG g ∨
    gIdsG (BookmarkGroup.addGroup c g) = gIdsG g ++ [c.id] := by
  cases g with
  | mk i n d bks gs p t =>
    rw [BookmarkGroup.addGroup]
    split
    · exact Or.inl rfl
    · refine Or.inr ?_
      rw [gIdsG, gIdsG, gIdsL_append]
      have hw : gIdsG (c.withParent (some i)) = [c.id] := by
        cases c with
        | mk ci cn cd cbks cgs cp ct =>
          rw [BookmarkGroup.groups_mk] at hc
          rw [BookmarkGroup.withParent, gIdsG, hc, gIdsL, BookmarkGroup.id_mk]
      rw [gIdsL, hw, gIdsL]
      simp

theorem addGroup_bksG (c : BookmarkGroup) (g : BookmarkGroup)
    (hcb : c.bookmarks = []) (hcg : c.groups = []) :
    bksG (BookmarkGroup.addGroup c g) = bksG g := by
  cases g with
  | mk i n d bks gs p t =>
    rw [BookmarkGroup.addGroup]
    split
    · rfl
    · rw [bksG, bksG, bksL_append]
      have hw : bksG (c.withParent (some i)) = [] := by
        cases c with
        | mk ci cn cd cbks cgs cp ct =>
          rw [BookmarkGroup.groups_mk] at hcg
          rw [BookmarkGroup.bookmarks_mk] at hcb
          rw [BookmarkGroup.withParent, bksG, hcg, hcb, bksL]
          rfl
      rw [bksL, hw, bksL]
      simp

mutual

theorem findUpdRec_effect (id0 : String) (f : BookmarkGroup → BookmarkGroup)
    (insG : List String) (insB : List Bookmark)
    (hg : ∀ x, gIdsG (f x) = gIdsG x ∨
      ∃ l r, gIdsG x = l ++ r ∧ gIdsG (f x) = l ++ insG ++ r)
    (hb : ∀ x, bksG (f x) = bksG x ∨
      ∃ l r, bksG x = l ++ r ∧ bksG (f x) = l ++ insB ++ r) :
    ∀ g g', findUpdRec id0 f g = some g' →
      (gIdsG g' = gIdsG g ∨ ∃ l r, gIdsG g = l ++ r ∧ gIdsG g' = l ++ insG ++ r) ∧
      (bksG g' = bksG g ∨ ∃ l r, bksG g = l ++ r ∧ bksG g' = l ++ insB ++ r)
  | .mk i n d bks gs p t, g' => by
    intro h
    rw [findUpdRec] at h
    by_cases hid : (i == id0) = true
    · rw [if_pos hid] at h
      have hg' : g' = f (.mk i n d bks gs p t) := by
        exact (Option.some.injEq _ _).mp h.symm
      rw [hg']
      exact ⟨hg _, hb _⟩
    · rw [if_neg hid] at h
      rcases Option.map_eq_some'.mp h with ⟨gs2, hgs2, heq⟩
      rcases findUpdList_effect id0 f insG insB hg hb gs gs2 hgs2 with ⟨hgl, hbl⟩
      subst heq
      constructor
      · rcases hgl with hgl | ⟨l, r, h1, h2⟩
        · exact Or.inl (by rw [gIdsG, hgl, gIdsG])
        · refine Or.inr ⟨i :: l, r, ?_, ?_⟩
          · rw [gIdsG, h1]
            simp [List.append_assoc]
          · rw [gIdsG, h2]
            simp [List.append_assoc]
      · rcases hbl with hbl | ⟨l, r, h1, h2⟩
        · exact Or.inl (by rw [bksG, hbl, bksG])
        · refine Or.inr ⟨bks ++ l, r, ?_, ?_⟩
          · rw [bksG, h1]
            simp [List.append_assoc]
          · rw [bksG, h2]
            simp [List.append_assoc]

theorem findUpdList_effect (id0 : String) (f : BookmarkGroup → BookmarkGroup)
    (insG : List String) (insB : List Bookmark)
    (hg : ∀ x, gIdsG (f x) = gIdsG x ∨
      ∃ l r, gIdsG x = l ++ r ∧ gIdsG (f x) = l ++ insG ++ r)
    (hb : ∀ x, bksG (f x) = bksG x ∨
      ∃ l r, bksG x = l ++ r ∧ bksG (f x) = l ++ insB ++ r) :
    ∀ gs gs', findUpdList id0 f gs = some gs' →
      (gIdsL gs' = gIdsL gs ∨ ∃ l r, gIdsL gs = l ++ r ∧ gIdsL gs' = l ++ insG ++ r) ∧
      (bksL gs' = bksL gs ∨ ∃ l r, bksL gs = l ++ r ∧ bksL gs' = l ++ insB ++ r)
  | [], gs' => by
    intro h
    rw [findUpdList] at h
    exact absurd h (by simp)
  | c :: rest, gs' => by
    intro h
    rw [findUpdList] at h
    rcases hc : findUpdRec id0 f c with _ | c'
    · rw [hc] at h
      rcases Option.map_eq_some'.mp h with ⟨gs2, hgs2, heq⟩
      rcases findUpdList_effect id0 f insG insB hg hb rest gs2 hgs2 with ⟨hgl, hbl⟩
      subst heq
      constructor
      · rcases hgl with hgl | ⟨l, r, h1, h2⟩
        · exact Or.inl (by rw [gIdsL, hgl, gIdsL])
        · refine Or.inr ⟨gIdsG c ++ l, r, ?_, ?_⟩
          · rw [gIdsL, h1]
            simp [List.append_assoc]
          · rw [gIdsL, h2]
            simp [List.append_assoc]
      · rcases hbl with hbl | ⟨l, r, h1, h2⟩
        · exact Or.inl (by rw [bksL, hbl, bksL])
        · refine Or.inr ⟨bksG c ++ l, r, ?_, ?_⟩
          · rw [bksL, h1]
            simp [List.append_assoc]
          · rw [bksL, h2]
            simp [List.append_assoc]
    · rw [hc] at h
      have heq : gs' = c' :: rest := by
        exact (Option.some.injEq _ _).mp h.symm
      rcases findUpdRec_effect id0 f insG insB hg hb c c' hc with ⟨hgc, hbc⟩
      subst heq
      constructor
      · rcases hgc with hgc | ⟨l, r, h1, h2⟩
        · exact Or.inl (by rw [gIdsL, hgc, gIdsL])
        · refine Or.inr ⟨l, r ++ gIdsL rest, ?_, ?_⟩
          · rw [gIdsL, h1]
            simp [List.append_assoc]
          · rw [gIdsL, h2]
            simp [List.append_assoc]
      · rcases hbc with hbc | ⟨l, r, h1, h2⟩
        · exact Or.inl (by rw [bksL, hbc, bksL])
        · refine Or.inr ⟨l, r ++ bksL rest, ?_, ?_⟩
          · rw [bksL, h1]
            simp [List.append_assoc]
          · rw [bksL, h2]
            simp [List.append_assoc]

end

theorem updateForest_effect (id0 : String) (f : BookmarkGroup → BookmarkGroup)
    (insG : List String) (insB : List Bookmark)
    (hg : ∀ x, gIdsG (f x) = gIdsG x ∨
      ∃ l r, gIdsG x = l ++ r ∧ gIdsG (f x) = l ++ insG ++ r)
    (hb : ∀ x, bksG (f x) = bksG x ∨
      ∃ l r, bksG x = l ++ r ∧ bksG (f x) = l ++ insB ++ r)
    (gs gs' : List BookmarkGroup) (h : updateGroupInForest id0 f gs = some gs') :
    (gIdsL gs' = gIdsL gs ∨ ∃ l r, gIdsL gs = l ++ r ∧ gIdsL gs' = l ++ insG ++ r) ∧
    (bksL gs' = bksL gs ∨ ∃ l r, bksL gs = l ++ r ∧ bksL gs' = l ++ insB ++ r) := by
  rw [updateGroupInForest] at h
  cases hsh : scanShallow (fun g => if g.id == id0 then (f g, true) else (g, false)) gs with
  | none =>
    rw [hsh] at h
    exact findUpdList_effect id0 f insG insB hg hb gs gs' h
  | some gs2 =>
    rw [hsh] at h
    have hgs' : gs' = gs2 := by exact (Option.some.injEq _ _).mp h.symm
    rw [hgs']
    rcases scanShallow_eq_some _ gs gs2 hsh with ⟨l, x, r, h1, h2, h3, _⟩
    have hfx : (if x.id == id0 then (f x, true) else (x, false)).1 = f x := by
      by_cases hx : (x.id == id0) = true
      · rw [if_pos hx]
      · rw [if_neg hx] at h2 ⊢
        exact absurd h2 (by simp)
    rw [hfx] at h3
    subst h1
    subst h3
    constructor
    · rcases hg x with hgx | ⟨a, bb, ha, hbb⟩
      · refine Or.inl ?_
        rw [gIdsL_append, gIdsL_append, gIdsL, gIdsL, hgx]
      · refine Or.inr ⟨gIdsL l ++ a, bb ++ gIdsL r, ?_, ?_⟩
        · rw [gIdsL_append, gIdsL, ha]
          simp [List.append_assoc]
        · rw [gIdsL_append, gIdsL, hbb]
          simp [List.append_assoc]
    · rcases hb x with hbx | ⟨a, bb, ha, hbb⟩
      · refine Or.inl ?_
        rw [bksL_append, bksL_append, bksL, bksL, hbx]
      · refine Or.inr ⟨bksL l ++ a, bb ++ bksL r, ?_, ?_⟩
        · rw [bksL_append, bksL, ha]
          simp [List.append_assoc]
        · rw [bksL_append, bksL, hbb]
          simp [List.append_assoc]

theorem addB_effect_g (b : Bookmark) :
    ∀ x, gIdsG (BookmarkGroup.addBookmark b x) = gIdsG x ∨
      ∃ l r, gIdsG x = l ++ r ∧
        gIdsG (BookmarkGroup.addBookmark b x) = l ++ ([] : List String) ++ r :=
  fun x => Or.inl (addBookmark_gIdsG b x)

theorem addB_effect_b (b : Bookmark) :
    ∀ x, bksG (BookmarkGroup.addBookmark b x) = bksG x ∨
      ∃ l r, bksG x = l ++ r ∧
        bksG (BookmarkGroup.addBookmark b x) = l ++ [b] ++ r := by
  intro x
  rcases addBookmark_bksG b x with h | ⟨h1, h2⟩
  · exact Or.inl h
  · refine Or.inr ⟨x.bookmarks, bksL x.groups, h1, ?_⟩
    rw [h2]
    simp

theorem addG_effect_g (c : BookmarkGroup) (hc : c.groups = []) :
    ∀ x, gIdsG (BookmarkGroup.addGroup c x) = gIdsG x ∨
      ∃ l r, gIdsG x = l ++ r ∧
        gIdsG (BookmarkGroup.addGroup c x) = l ++ [c.id] ++ r := by
  intro x
  rcases addGroup_gIdsG c x hc with h | h
  · exact Or.inl h
  · refine Or.inr ⟨gIdsG x, [], by simp, ?_⟩
    rw [h]
    simp

theorem addG_effect_b (c : BookmarkGroup) (hcb : c.bookmarks = [])
    (hcg : c.groups = []) :
    ∀ x, bksG (BookmarkGroup.addGroup c x) = bksG x ∨
      ∃ l r, bksG x = l ++ r ∧
        bksG (BookmarkGroup.addGroup c x) = l ++ ([] : List Bookmark) ++ r :=
  fun x => Or.inl (addGroup_bksG c x hcb hcg)

theorem root_push_bkIds (st : ManagerState) (b : Bookmark) :
    bkIds ⟨st.bookmarks ++ [b], st.groups⟩
      = st.bookmarks.map Bookmark.id ++ b.id :: (bksL st.groups).map Bookmark.id := by
  rw [bkIds]
  simp [List.map_append]

theorem addBookmark_step (st : ManagerState) (uri : String) (n? d? : Option String)
    (gid? : Option String) (now rand : Nat) :
    grIds (addBookmark st uri n? d? gid? now rand).1 = grIds st ∧
    (bkIds (addBookmark st uri n? d? gid? now rand).1 = bkIds st ∨
      ∃ l r, bkIds st = l ++ r ∧
        bkIds (addBookmark st uri n? d? gid? now rand).1
          = l ++ mkBookmarkId now rand :: r) := by
  have hbid : (Bookmark.create uri n? d? now rand).id = mkBookmarkId now rand := rfl
  simp only [addBookmark]
  cases gid? with
  | none =>
    dsimp only
    refine ⟨rfl, Or.inr ⟨st.bookmarks.map Bookmark.id,
      (bksL st.groups).map Bookmark.id, ?_, ?_⟩⟩
    · rw [bkIds, List.map_append]
    · rw [root_push_bkIds st (Bookmark.create uri n? d? now rand), hbid]
  | some gid =>
    cases hu : updateGroupInForest gid
        (BookmarkGroup.addBookmark (Bookmark.create uri n? d? now rand)) st.groups with
    | none =>
      simp only [hu]
      refine ⟨rfl, Or.inr ⟨st.bookmarks.map Bookmark.id,
        (bksL st.groups).map Bookmark.id, ?_, ?_⟩⟩
      · rw [bkIds, List.map_append]
      · rw [root_push_bkIds st (Bookmark.create uri n? d? now rand), hbid]
    | some gs' =>
      simp only [hu]
      have heff := updateForest_effect gid _ [] [Bookmark.create uri n? d? now rand]
        (addB_effect_g _) (addB_effect_b _) st.groups gs' hu
      constructor
      · rcases heff.1 with h | ⟨l, r, h1, h2⟩
        · rw [grIds, grIds, h]
        · rw [grIds, grIds, h1, h2]
          simp
      · rcases heff.2 with h | ⟨l, r, h1, h2⟩
        · refine Or.inl ?_
          rw [bkIds, bkIds, h]
        · refine Or.inr ⟨st.bookmarks.map Bookmark.id ++ l.map Bookmark.id,
            r.map Bookmark.id, ?_, ?_⟩
          · rw [bkIds, h1]
            simp [List.map_append, List.append_assoc]
          · rw [bkIds, h2, hbid.symm]
            simp [List.map_append, List.append_assoc]

theorem createGroup_step (st : ManagerState) (name : String) (d? : Option String)
    (pid? : Option String) (now rand : Nat) :
    bkIds (createGroup st name d? pid? now rand).1 = bkIds st ∧
    (grIds (createGroup st name d? pid? now rand).1 = grIds st ∨
      ∃ l r, grIds st = l ++ r ∧
        grIds (createGroup st name d? pid? now rand).1
          = l ++ mkGroupId now rand :: r) := by
  have hgid : (BookmarkGroup.create name d? none now rand).id = mkGroupId now rand := rfl
  have hgg : (BookmarkGroup.create name d? none now rand).groups = [] := rfl
  have hgb : (BookmarkGroup.create name d? none now rand).bookmarks = [] := rfl
  have hgIdsNew : gIdsG (BookmarkGroup.create name d? none now rand)
      = [mkGroupId now rand] := rfl
  simp only [createGroup]
  cases pid? with
  | none =>
    dsimp only
    have hbk0 : bkIds ⟨st.bookmarks,
        st.groups ++ [BookmarkGroup.create name d? none now rand]⟩ = bkIds st := by
      rw [bkIds, bkIds, bksL_append]
      rw [show bksL [BookmarkGroup.create name d? none now rand] = [] from rfl]
      simp
    refine ⟨hbk0, Or.inr ⟨gIdsL st.groups, [], by simp [grIds], ?_⟩⟩
    rw [grIds]
    dsimp only
    rw [gIdsL_append, gIdsL, hgIdsNew, gIdsL]
    simp
  | some pid =>
    cases hu : updateGroupInForest pid
        (BookmarkGroup.addGroup (BookmarkGroup.create name d? none now rand)) st.groups with
    | none =>
      simp only [hu]
      have hbk0 : bkIds ⟨st.bookmarks,
          st.groups ++ [BookmarkGroup.create name d? none now rand]⟩ = bkIds st := by
        rw [bkIds, bkIds, bksL_append]
        rw [show bksL [BookmarkGroup.create name d? none now rand] = [] from rfl]
        simp
      refine ⟨hbk0, Or.inr ⟨gIdsL st.groups, [], by simp [grIds], ?_⟩⟩
      rw [grIds]
      dsimp only
      rw [gIdsL_append, gIdsL, hgIdsNew, gIdsL]
      simp
    | some gs' =>
      simp only [hu]
      have heff := updateForest_effect pid _ [mkGroupId now rand] []
        (by rw [← hgid]; exact addG_effect_g _ hgg)
        (addG_effect_b _ hgb hgg) st.groups gs' hu
      constructor
      · rcases heff.2 with h | ⟨l, r, h1, h2⟩
        · rw [bkIds, bkIds, h]
        · rw [bkIds, bkIds, h1, h2]
          simp
      · rcases heff.1 with h | ⟨l, r, h1, h2⟩
        · refine Or.inl ?_
          rw [grIds, grIds, h]
        · refine Or.inr ⟨l, r, h1, ?_⟩
          rw [grIds, h2]
          simp

theorem nodup_insert_fresh (l r : List String) (x : String)
    (h : (l ++ r).Nodup) (hx : x ∉ l ++ r) : (l ++ x :: r).Nodup := by
  rw [List.nodup_middle]
  exact List.nodup_cons.mpr ⟨hx, h⟩

theorem not_contains_iff (l : List String) (a : String) :
    (!l.contains a) = true ↔ a ∉ l := by
  simp

theorem applyOp_preserves (st : ManagerState) (op : Op)
    (h1 : (bkIds st).Nodup) (h2 : (grIds st).Nodup)
    (hf : (match op with
      | .addB _ _ _ _ _ _ =>
          !((getAllBookmarks st).map Bookmark.id).contains op.genId
      | .createG _ _ _ _ _ =>
          !((getAllGroups st).map BookmarkGroup.id).contains op.genId) = true) :
    (bkIds (applyOp st op)).Nodup ∧ (grIds (applyOp st op)).Nodup := by
  cases op with
  | addB uri n? d? gid? now rand =>
    have hfresh : mkBookmarkId now rand ∉ bkIds st := by
      have hni : mkBookmarkId now rand ∉ (getAllBookmarks st).map Bookmark.id :=
        (not_contains_iff _ _).mp hf
      intro hc
      exact hni ((List.Perm.mem_iff (getAllBookmarks_ids_perm st)).mpr hc)
    rw [applyOp]
    rcases addBookmark_step st uri n? d? gid? now rand with ⟨hgr, hbk⟩
    constructor
    · rcases hbk with hbk | ⟨l, r, hl, hr⟩
      · rw [hbk]; exact h1
      · rw [hr]
        rw [hl] at h1 hfresh
        exact nodup_insert_fresh l r _ h1 hfresh
    · rw [hgr]; exact h2
  | createG n d? pid? now rand =>
    have hfresh : mkGroupId now rand ∉ grIds st := by
      have hni : mkGroupId now rand ∉ (getAllGroups st).map BookmarkGroup.id :=
        (not_contains_iff _ _).mp hf
      intro hc
      exact hni ((List.Perm.mem_iff (getAllGroups_ids_perm st)).mpr hc)
    rw [applyOp]
    rcases createGroup_step st n d? pid? now rand with ⟨hbk, hgr⟩
    constructor
    · rw [hbk]; exact h1
    · rcases hgr with hgr | ⟨l, r, hl, hr⟩
      · rw [hgr]; exact h2
      · rw [hr]
        rw [hl] at h2 hfresh
        exact nodup_insert_fresh l r _ h2 hfresh

theorem uniq_run (ops : List Op) : ∀ st : ManagerState,
    (bkIds st).Nodup → (grIds st).Nodup → freshRunB st ops = true →
    (bkIds (applyOps st ops)).Nodup ∧ (grIds (applyOps st ops)).Nodup := by
  induction ops with
  | nil =>
    intro st h1 h2 _
    exact ⟨h1, h2⟩
  | cons op rest ih =>
    intro st h1 h2 hf
    rw [freshRunB.eq_def] at hf
    dsimp only at hf
    rw [Bool.and_eq_true] at hf
    rw [applyOps]
    rcases applyOp_preserves st op h1 h2 hf.1 with ⟨h1', h2'⟩
    exact ih (applyOp st op) h1' h2' hf.2

/-- C9, amended: for every sequence of `addBookmark`/`createGroup` calls in
which each call's generated id (derived from its `Date.now()` timestamp and
random suffix) differs from every id already present in the forest, all
bookmark ids and all group ids remain unique across the whole forest at
every instant.  The freshness proviso is necessary: the generator is
timestamp-plus-random and two calls that draw the same pair produce the
same id (see the counterexample). -/
theorem C9_unique_ids_if_fresh (st : ManagerState) (ops : List Op)
    (h1 : UniqueIds st) (h2 : freshRunB st ops = true) :
    UniqueIds (applyOps st ops) := by
  rw [UniqueIds_iff] at h1 ⊢
  exact uniq_run ops st h1.1 h1.2 h2

/-- Fixture: two addBookmark calls drawing the same timestamp and random
suffix, then a fresh-drawing run for the witness. -/
def c9clashOps : List Op :=
  [.addB "file:///a.txt" none none none 5 7, .addB "file:///b.txt" none none none 5 7]

def c9freshOps : List Op :=
  [.addB "file:///a.txt" none none none 1 2,
   .createG "G" none none 3 4,
   .addB "file:///b.txt" none none none 5 6]

/-- C9, counterexample to the claim as stated: two `addBookmark` calls whose
`Date.now()` and random draw coincide produce the same id, so after this
sequence the forest holds two distinct bookmarks with the identical id
`bookmark-5-7` — ids are not unique for every call sequence. -/
theorem C9_counterexample :
    (getAllBookmarks (applyOps ⟨[], []⟩ c9clashOps)).map Bookmark.id
      = ["bookmark-5-7", "bookmark-5-7"] ∧
    ¬ UniqueIds (applyOps ⟨[], []⟩ c9clashOps) := by
  constructor
  · rfl
  · intro h
    rcases h with ⟨hb, _⟩
    rw [show (getAllBookmarks (applyOps ⟨[], []⟩ c9clashOps)).map Bookmark.id
      = ["bookmark-5-7", "bookmark-5-7"] from rfl] at hb
    rcases List.nodup_cons.mp hb with ⟨hmem, _⟩
    exact hmem (List.mem_singleton.mpr rfl)

/-- Witness for C9 on a concrete fresh-drawing run from the empty forest. -/
theorem C9_unique_ids_if_fresh_witness :
    freshRunB ⟨[], []⟩ c9freshOps = true ∧ UniqueIds (applyOps ⟨[], []⟩ c9freshOps) :=
  ⟨rfl, C9_unique_ids_if_fresh ⟨[], []⟩ c9freshOps (by constructor <;> decide) rfl⟩

theorem findBookmark_remove_removed (st : ManagerState) (id : String)
    (h : (findBookmarkById st id).isSome) : (removeBookmark st id).2.1 = true := by
  rw [findBookmarkById] at h
  rw [removeBookmark]
  cases hr : st.bookmarks.find? (fun b => b.id == id) with
  | some b =>
    have hmem := List.mem_of_find?_eq_some hr
    have hpred := List.find?_some hr
    have hcond : ((st.bookmarks.filter (fun b => !(b.id == id))).length
        == st.bookmarks.length) = false :=
      (filter_length_beq_false_iff st.bookmarks (fun b => b.id == id)).mpr
        ⟨b, hmem, hpred⟩
    rw [hcond]
    rfl
  | none =>
    rw [hr] at h
    have hall : ∀ x ∈ st.bookmarks, ¬((fun b => b.id == id) x = true) :=
      List.find?_eq_none.mp hr
    have hsame : st.bookmarks.filter (fun b => !(b.id == id)) = st.bookmarks := by
      refine List.filter_eq_self.mpr ?_
      intro a ha
      have hne := hall a ha
      have hf : (a.id == id) = false := Bool.eq_false_iff.mpr hne
      rw [hf]
      rfl
    rw [hsame]
    simp only [beq_self_eq_true, Bool.not_true]
    rw [if_neg (by simp : ¬(false = true))]
    rcases (firstSome_isSome_iff _ _).mp h with ⟨g, hg, hfind⟩
    rcases Option.isSome_iff_exists.mp hfind with ⟨b, hb⟩
    have hp0 := List.find?_some hb
    have hp : (b.id == id) = true := hp0
    have hsnd : (BookmarkGroup.removeBookmark id g).2 = true :=
      (groupRemoveBookmark_snd_iff g id).mpr
        ⟨b, List.mem_of_find?_eq_some hb, beq_iff_eq.mp hp⟩
    have hiss : (visitUpdateForest (BookmarkGroup.removeBookmark id) st.groups).isSome :=
      (visitUpdateForest_isSome_iff _ _).mpr ⟨g, hg, hsnd⟩
    cases hv : visitUpdateForest (BookmarkGroup.removeBookmark id) st.groups with
    | some gs' => rfl
    | none =>
      rw [hv] at hiss
      exact absurd hiss (by simp)

theorem removeBookmark_trace (st : ManagerState) (id : String) :
    (removeBookmark st id).2.2
      = if (removeBookmark st id).2.1 then [Ev.fire, Ev.persist] else [] := by
  rw [removeBookmark]
  cases hcond : ((st.bookmarks.filter (fun b => !(b.id == id))).length
      == st.bookmarks.length) with
  | false => rfl
  | true =>
    simp only [Bool.not_true]
    rw [if_neg (by simp : ¬(false = true))]
    cases visitUpdateForest (BookmarkGroup.removeBookmark id) st.groups with
    | some gs' => rfl
    | none => rfl

theorem removeGroup_trace (st : ManagerState) (id : String) :
    (removeGroup st id).2.2
      = if (removeGroup st id).2.1 then [Ev.fire, Ev.persist] else [] := by
  rw [removeGroup]
  cases hcond : ((st.groups.filter (fun g => !(g.id == id))).length
      == st.groups.length) with
  | false => rfl
  | true =>
    simp only [Bool.not_true]
    rw [if_neg (by simp : ¬(false = true))]
    cases visitUpdateForest (BookmarkGroup.removeGroup id)
        (st.groups.filter (fun g => !(g.id == id))) with
    | some gs' => rfl
    | none => rfl

theorem updateGroup_trace (st : ManagerState) (id : String)
    (n? d? : Option String) :
    (updateGroup st id n? d?).2.2
      = if (updateGroup st id n? d?).2.1 then [Ev.fire, Ev.persist] else [] := by
  rw [updateGroup]
  cases updateGroupInForest id _ st.groups with
  | some gs' => rfl
  | none => rfl

theorem importFromJSON_trace (doc : Option StoredDoc) (merge : Bool)
    (st : ManagerState) :
    (importFromJSON doc merge st).2.2
      = if (importFromJSON doc merge st).2.1 then [Ev.fire, Ev.persist] else [] := by
  cases doc with
  | none => rfl
  | some d => rfl

theorem moveBookmark_trace (st : ManagerState) (bId gId : String) :
    (moveBookmarkToGroup st bId gId).2.2
      = if (moveBookmarkToGroup st bId gId).2.1
        then [Ev.fire, Ev.persist, Ev.fire, Ev.persist] else [] := by
  rw [moveBookmarkToGroup]
  cases hb : findBookmarkById st bId with
  | none =>
    cases findGroupById st gId with
    | none => rfl
    | some g => rfl
  | some b =>
    cases findGroupById st gId with
    | none => rfl
    | some g =>
      have hrm : (removeBookmark st bId).2.1 = true :=
        findBookmark_remove_removed st bId (by rw [hb]; rfl)
      have htr : (removeBookmark st bId).2.2 = [Ev.fire, Ev.persist] := by
        rw [removeBookmark_trace, hrm, if_pos rfl]
      dsimp only
      rw [htr]
      rfl

/-- C3, amended: every mutating operation that actually mutates fires the
change event immediately after the in-memory mutation and before the
persistence write — the emitted trace per mutation is `[fire, persist]`,
not persist-then-fire.  `addBookmark`, `createGroup` and a parsed
`importFromDocument` always fire exactly once; `removeBookmark`,
`removeGroup` and `updateGroup` fire exactly once when they find their
target and not at all otherwise; and a successful `moveBookmarkToGroup`
fires twice — its internal `removeBookmark` call fires and persists, and
then the move fires and persists again. -/
theorem C3_event_traces (st : ManagerState) (uri name2 : String)
    (n? d? gid? : Option String) (now rand : Nat) (id bId gId : String)
    (doc : Option StoredDoc) (merge : Bool) :
    (addBookmark st uri n? d? gid? now rand).2.2 = [Ev.fire, Ev.persist] ∧
    (createGroup st name2 d? gid? now rand).2.2 = [Ev.fire, Ev.persist] ∧
    ((removeBookmark st id).2.2
      = if (removeBookmark st id).2.1 then [Ev.fire, Ev.persist] else []) ∧
    ((removeGroup st id).2.2
      = if (removeGroup st id).2.1 then [Ev.fire, Ev.persist] else []) ∧
    ((updateGroup st id n? d?).2.2
      = if (updateGroup st id n? d?).2.1 then [Ev.fire, Ev.persist] else []) ∧
    ((importFromJSON doc merge st).2.2
      = if (importFromJSON doc merge st).2.1 then [Ev.fire, Ev.persist] else []) ∧
    ((moveBookmarkToGroup st bId gId).2.2
      = if (moveBookmarkToGroup st bId gId).2.1
        then [Ev.fire, Ev.persist, Ev.fire, Ev.persist] else []) :=
  ⟨rfl, rfl, removeBookmark_trace st id, removeGroup_trace st id,
    updateGroup_trace st id n? d?, importFromJSON_trace doc merge st,
    moveBookmark_trace st bId gId⟩

/-- Fixture for the event-trace counterexample: one root bookmark and one
empty root group, so the move resolves and succeeds. -/
def c3b : Bookmark := ⟨"b1", "file:///a.txt", "a", "", 0⟩

def c3g : BookmarkGroup := .mk "g1" "G" "" [] [] none 0

/-- C3, counterexample to the claim as stated: a successful
`moveBookmarkToGroup` emits two change events, not exactly one — the
internal `removeBookmark` fires and persists before the move's own fire —
and `addBookmark`'s trace is fire followed by persist, so the single event
of a mutating call is fired before, not after, the persistence write
completes. -/
theorem C3_counterexample :
    (moveBookmarkToGroup ⟨[c3b], [c3g]⟩ "b1" "g1").2.1 = true ∧
    (moveBookmarkToGroup ⟨[c3b], [c3g]⟩ "b1" "g1").2.2
      = [Ev.fire, Ev.persist, Ev.fire, Ev.persist] ∧
    (moveBookmarkToGroup ⟨[c3b], [c3g]⟩ "b1" "g1").2.2.count Ev.fire ≠ 1 ∧
    (addBookmark ⟨[], []⟩ "file:///n.txt" none none none 9 9).2.2
      = [Ev.fire, Ev.persist] := by
  refine ⟨rfl, rfl, ?_, rfl⟩
  intro h
  rw [show (moveBookmarkToGroup ⟨[c3b], [c3g]⟩ "b1" "g1").2.2
    = [Ev.fire, Ev.persist, Ev.fire, Ev.persist] from rfl] at h
  exact absurd h (by decide)

theorem find?_split {α : Type _} (l : List α) (p : α → Bool) (a : α)
    (h : l.find? p = some a) :
    ∃ l1 l2, l = l1 ++ a :: l2 ∧ ∀ x ∈ l1, p x = false := by
  induction l with
  | nil => rw [List.find?] at h; exact absurd h (by simp)
  | cons x xs ih =>
    rw [List.find?] at h
    cases hp : p x with
    | true =>
      rw [hp] at h
      have hax : a = x := by
        have := (Option.some.injEq _ _).mp h
        exact this.symm
      subst hax
      exact ⟨[], xs, rfl, by simp⟩
    | false =>
      rw [hp] at h
      rcases ih h with ⟨l1, l2, h1, h2⟩
      refine ⟨x :: l1, l2, by rw [h1, List.cons_append], ?_⟩
      intro y hy
      rcases List.mem_cons.mp hy with rfl | hy'
      · exact hp
      · exact h2 y hy'

theorem find?_append_cons {α : Type _} (l1 l2 : List α) (p : α → Bool) (a : α)
    (hl : ∀ x ∈ l1, p x = false) (ha : p a = true) :
    (l1 ++ a :: l2).find? p = some a := by
  induction l1 with
  | nil =>
    rw [List.nil_append, List.find?, ha]
  | cons x xs ih =>
    rw [List.cons_append, List.find?, hl x (List.mem_cons_self _ _)]
    exact ih (fun y hy => hl y (List.mem_cons_of_mem _ hy))

theorem find?_none_of_map_eq (q : String → Bool)
    (l l' : List BookmarkGroup)
    (hm : l.map BookmarkGroup.id = l'.map BookmarkGroup.id)
    (h : l.find? (fun x => q x.id) = none) :
    l'.find? (fun x => q x.id) = none := by
  induction l generalizing l' with
  | nil =>
    cases l' with
    | nil => rfl
    | cons y ys => exact absurd hm (by simp)
  | cons x xs ih =>
    cases l' with
    | nil => exact absurd hm (by simp)
    | cons y ys =>
      rw [List.map_cons, List.map_cons] at hm
      have hid : x.id = y.id := by
        have := congrArg (fun z => z.headD "") hm
        simpa using this
      have htl : xs.map BookmarkGroup.id = ys.map BookmarkGroup.id := by
        have := congrArg List.tail hm
        simpa using this
      rw [List.find?] at h ⊢
      cases hq : q x.id with
      | true => rw [hq] at h; exact absurd h (by simp)
      | false =>
        rw [hq] at h
        rw [← hid, hq]
        exact ih ys htl h

mutual

theorem findUpd_agree_rec (id : String) (f : BookmarkGroup → BookmarkGroup)
    (hf : ∀ x, (f x).id = x.id) :
    ∀ g h, findGroupByIdRec id g = some h →
      ∃ g', findUpdRec id f g = some g' ∧ g'.id = g.id ∧
        findGroupByIdRec id g' = some (f h)
  | .mk i n d bks gs p t, h => by
    intro hfind
    rw [findGroupByIdRec] at hfind
    by_cases hid : (i == id) = true
    · rw [if_pos hid] at hfind
      have hh : h = .mk i n d bks gs p t := by
        exact ((Option.some.injEq _ _).mp hfind).symm
      rw [hh]
      refine ⟨f (.mk i n d bks gs p t), ?_, ?_, ?_⟩
      · rw [findUpdRec, if_pos hid]
      · exact hf _
      · have h2 := hf (.mk i n d bks gs p t)
        rcases hfg : f (.mk i n d bks gs p t) with ⟨i2, n2, d2, bks2, gs2, p2, t2⟩
        rw [hfg] at h2
        have hi2 : i2 = i := by simpa using h2
        rw [findGroupByIdRec, if_pos (by rw [hi2]; exact hid)]
    · rw [if_neg hid] at hfind
      rcases findUpd_agree_list id f hf gs h hfind with ⟨gs', hupd, hmap, hrefind⟩
      refine ⟨.mk i n d bks gs' p t, ?_, rfl, ?_⟩
      · rw [findUpdRec, if_neg hid, hupd]
        rfl
      · rw [findGroupByIdRec, if_neg hid]
        exact hrefind

theorem findUpd_agree_list (id : String) (f : BookmarkGroup → BookmarkGroup)
    (hf : ∀ x, (f x).id = x.id) :
    ∀ gs h, findGroupByIdRecList id gs = some h →
      ∃ gs', findUpdList id f gs = some gs' ∧
        gs'.map BookmarkGroup.id = gs.map BookmarkGroup.id ∧
        findGroupByIdRecList id gs' = some (f h)
  | [], h => by
    intro hfind
    rw [findGroupByIdRecList] at hfind
    exact absurd hfind (by simp)
  | c :: rest, h => by
    intro hfind
    rw [findGroupByIdRecList] at hfind
    cases hc : findGroupByIdRec id c with
    | some h0 =>
      rw [hc] at hfind
      have hh : h0 = h := (Option.some.injEq _ _).mp hfind
      subst hh
      rcases findUpd_agree_rec id f hf c h0 hc with ⟨c', hupd, hcid, hrefind⟩
      refine ⟨c' :: rest, ?_, ?_, ?_⟩
      · rw [findUpdList, hupd]
      · rw [List.map_cons, List.map_cons, hcid]
      · rw [findGroupByIdRecList, hrefind]
    | none =>
      rw [hc] at hfind
      rcases findUpd_agree_list id f hf rest h hfind with ⟨gs', hupd, hmap, hrefind⟩
      have hcnone : findUpdRec id f c = none := findUpd_none_rec id f hf c hc
      refine ⟨c :: gs', ?_, ?_, ?_⟩
      · rw [findUpdList, hcnone, hupd]
        rfl
      · rw [List.map_cons, List.map_cons, hmap]
      · rw [findGroupByIdRecList, hc, hrefind]

theorem findUpd_none_rec (id : String) (f : BookmarkGroup → BookmarkGroup)
    (hf : ∀ x, (f x).id = x.id) :
    ∀ g, findGroupByIdRec id g = none → findUpdRec id f g = none
  | .mk i n d bks gs p t => by
    intro hfind
    rw [findGroupByIdRec] at hfind
    by_cases hid : (i == id) = true
    · rw [if_pos hid] at hfind
      exact absurd hfind (by simp)
    · rw [if_neg hid] at hfind
      rw [findUpdRec, if_neg hid]
      rw [findUpd_none_list id f hf gs hfind]
      rfl

theorem findUpd_none_list (id : String) (f : BookmarkGroup → BookmarkGroup)
    (hf : ∀ x, (f x).id = x.id) :
    ∀ gs, findGroupByIdRecList id gs = none → findUpdList id f gs = none
  | [] => by
    intro _
    rw [findUpdList]
  | c :: rest => by
    intro hfind
    rw [findGroupByIdRecList] at hfind
    cases hc : findGroupByIdRec id c with
    | some h0 => rw [hc] at hfind; exact absurd hfind (by simp)
    | none =>
      rw [hc] at hfind
      rw [findUpdList, findUpd_none_rec id f hf c hc,
        findUpd_none_list id f hf rest hfind]
      rfl

end

theorem findGroupById_update (st : ManagerState) (id : String)
    (f : BookmarkGroup → BookmarkGroup) (hf : ∀ x, (f x).id = x.id)
    (g : BookmarkGroup) (h : findGroupById st id = some g) :
    ∃ gs', updateGroupInForest id f st.groups = some gs' ∧
      findGroupByIdF id gs' = some (f g) := by
  rw [findGroupById, findGroupByIdF] at h
  rw [updateGroupInForest]
  cases hsh : st.groups.find? (fun x => x.id == id) with
  | some g0 =>
    rw [hsh] at h
    have hg0 : g0 = g := (Option.some.injEq _ _).mp h
    subst hg0
    have hp0 := List.find?_some hsh
    have hp : (g0.id == id) = true := hp0
    rcases find?_split st.groups _ g0 hsh with ⟨l1, l2, hsplit, hpref⟩
    have hscan : scanShallow (fun x => if x.id == id then (f x, true) else (x, false))
        st.groups = some (l1 ++ f g0 :: l2) := by
      rw [hsplit]
      have hpred : ((fun x => if x.id == id then (f x, true) else (x, false)) g0).2
          = true := by simp [hp]
      have hres := scanShallow_hit
        (fun x => if x.id == id then (f x, true) else (x, false)) l1 l2 g0
        (fun y hy => by
          have hq : (y.id == id) = false := hpref y hy
          simp [hq]) hpred
      rw [hres]
      simp [hp]
    rw [hscan]
    refine ⟨l1 ++ f g0 :: l2, rfl, ?_⟩
    rw [findGroupByIdF]
    have hfound : (l1 ++ f g0 :: l2).find? (fun x => x.id == id) = some (f g0) :=
      find?_append_cons l1 l2 _ (f g0) (fun y hy => hpref y hy)
        (by rw [hf g0]; exact hp)
    rw [hfound]
  | none =>
    rw [hsh] at h
    have hscan : scanShallow (fun x => if x.id == id then (f x, true) else (x, false))
        st.groups = none := by
      have hnone : ∀ x ∈ st.groups, ¬((fun y => y.id == id) x = true) :=
        List.find?_eq_none.mp hsh
      cases hs2 : scanShallow (fun x => if x.id == id then (f x, true) else (x, false))
          st.groups with
      | none => rfl
      | some gs2 =>
        have hiss : (scanShallow (fun x => if x.id == id then (f x, true) else (x, false))
            st.groups).isSome := by rw [hs2]; rfl
        rcases (scanShallow_isSome_iff _ _).mp hiss with ⟨x, hx, hsnd⟩
        by_cases hxid : (x.id == id) = true
        · exact absurd hxid (hnone x hx)
        · rw [if_neg hxid] at hsnd
          exact absurd hsnd (by simp)
    rw [hscan]
    rcases findUpd_agree_list id f hf st.groups g h with ⟨gs', hupd, hmap, hrefind⟩
    refine ⟨gs', hupd, ?_⟩
    rw [findGroupByIdF]
    have hsh' : gs'.find? (fun x => x.id == id) = none :=
      find?_none_of_map_eq (fun y => y == id) st.groups gs' hmap.symm hsh
    rw [hsh']
    exact hrefind

theorem addBookmark_id (b : Bookmark) (g : BookmarkGroup) :
    (BookmarkGroup.addBookmark b g).id = g.id := by
  cases g with
  | mk i n d bks gs p t =>
    rw [BookmarkGroup.addBookmark]
    split <;> rfl

theorem addBookmark_of_empty (b : Bookmark) (g : BookmarkGroup)
    (h : g.bookmarks = []) :
    BookmarkGroup.addBookmark b g = g.setBookmarks [b] := by
  cases g with
  | mk i n d bks gs p t =>
    rw [BookmarkGroup.bookmarks_mk] at h
    subst h
    rw [BookmarkGroup.addBookmark, BookmarkGroup.setBookmarks]
    rw [if_neg (by simp)]
    rfl

theorem removeBookmark_root_hit (st : ManagerState) (bId : String) (b : Bookmark)
    (hb : st.bookmarks.find? (fun x => x.id == bId) = some b) :
    removeBookmark st bId =
      (⟨st.bookmarks.filter (fun x => !(x.id == bId)), st.groups⟩, true,
        [Ev.fire, Ev.persist]) := by
  rw [removeBookmark]
  have hp0 := List.find?_some hb
  have hp : (b.id == bId) = true := hp0
  have hcond : ((st.bookmarks.filter (fun x => !(x.id == bId))).length
      == st.bookmarks.length) = false :=
    (filter_length_beq_false_iff st.bookmarks (fun x => x.id == bId)).mpr
      ⟨b, List.mem_of_find?_eq_some hb, hp⟩
  rw [hcond]
  rfl

/-- C6, confirmed: `moveBookmarkToGroup` returns false and leaves the entire
state untouched (firing nothing) when either id fails to resolve; and in
the scenario the claim describes — the bookmark at root, the target an
existing empty group — afterward the target group resolved by
`findGroupById` holds exactly the moved bookmark (one bookmark, with the
moved id), and the root bookmarks no longer contain any bookmark with that
id. -/
theorem C6_move_resolution (st : ManagerState) (bId gId : String) :
    ((findBookmarkById st bId = none ∨ findGroupById st gId = none) →
      moveBookmarkToGroup st bId gId = (st, false, [])) ∧
    (∀ b g, st.bookmarks.find? (fun x => x.id == bId) = some b →
      findGroupById st gId = some g → g.bookmarks = [] →
      ∃ st', moveBookmarkToGroup st bId gId
          = (st', true, [Ev.fire, Ev.persist, Ev.fire, Ev.persist]) ∧
        findGroupById st' gId = some (g.setBookmarks [b]) ∧
        b.id = bId ∧
        (∀ x ∈ st'.bookmarks, x.id ≠ bId)) := by
  constructor
  · intro hfail
    rcases hfail with hfail | hfail
    · rw [moveBookmarkToGroup, hfail]
    · rw [moveBookmarkToGroup, hfail]
      try cases findBookmarkById st bId <;> rfl
  · intro b g hb hg hge
    have hfb : findBookmarkById st bId = some b := by
      rw [findBookmarkById, hb]
    have hrm := removeBookmark_root_hit st bId b hb
    have hg1 : findGroupById
        (⟨st.bookmarks.filter (fun x => !(x.id == bId)), st.groups⟩ : ManagerState)
        gId = some g := hg
    rcases findGroupById_update
        (⟨st.bookmarks.filter (fun x => !(x.id == bId)), st.groups⟩ : ManagerState)
        gId (BookmarkGroup.addBookmark b) (addBookmark_id b) g hg1 with
      ⟨gs', hupd, hrefind⟩
    refine ⟨⟨st.bookmarks.filter (fun x => !(x.id == bId)), gs'⟩, ?_, ?_, ?_, ?_⟩
    · rw [moveBookmarkToGroup, hfb, hg]
      dsimp only
      rw [hrm]
      dsimp only
      rw [hupd]
      rfl
    · rw [findGroupById]
      rw [hrefind, addBookmark_of_empty b g hge]
    · have hp0 := List.find?_some hb
      exact beq_iff_eq.mp hp0
    · intro x hx
      have hmem := List.mem_filter.mp hx
      have := hmem.2
      intro hxe
      rw [hxe] at this
      simp at this

/-- Fixture for the move witness: one root bookmark and one empty root
group. -/
def c6b : Bookmark := ⟨"b1", "file:///m.txt", "m", "", 2⟩

def c6g : BookmarkGroup := .mk "g1" "Target" "" [] [] none 2

/-- Witness for C6: an unresolvable pair leaves the empty state untouched,
and a concrete root bookmark moved into a concrete empty group lands there
as its only bookmark while leaving the root without it. -/
theorem C6_move_resolution_witness :
    moveBookmarkToGroup ⟨[], []⟩ "nob" "nog" = (⟨[], []⟩, false, []) ∧
    ∃ st', moveBookmarkToGroup ⟨[c6b], [c6g]⟩ "b1" "g1"
        = (st', true, [Ev.fire, Ev.persist, Ev.fire, Ev.persist]) ∧
      findGroupById st' "g1" = some (c6g.setBookmarks [c6b]) ∧
      c6b.id = "b1" ∧
      (∀ x ∈ st'.bookmarks, x.id ≠ "b1") :=
  ⟨(C6_move_resolution ⟨[], []⟩ "nob" "nog").1 (Or.inl rfl),
   (C6_move_resolution ⟨[c6b], [c6g]⟩ "b1" "g1").2 c6b c6g rfl rfl rfl⟩

theorem setBookmarks_id (g : BookmarkGroup) (bks : List Bookmark) :
    (g.setBookmarks bks).id = g.id := by
  cases g with
  | mk i n d b0 gs p t => rfl

theorem setBookmarks_bookmarks (g : BookmarkGroup) (bks : List Bookmark) :
    (g.setBookmarks bks).bookmarks = bks := by
  cases g with
  | mk i n d b0 gs p t => rfl

theorem setBookmarks_setBookmarks (g : BookmarkGroup) (a b : List Bookmark) :
    (g.setBookmarks a).setBookmarks b = g.setBookmarks b := by
  cases g with
  | mk i n d b0 gs p t => rfl

theorem setBookmarks_groups (g : BookmarkGroup) (bks : List Bookmark) :
    (g.setBookmarks bks).groups = g.groups := by
  cases g with
  | mk i n d b0 gs p t => rfl

theorem groupRemoveBookmark_fst (id : String) (g : BookmarkGroup) :
    (BookmarkGroup.removeBookmark id g).1
      = g.setBookmarks (g.bookmarks.filter (fun x => !(x.id == id))) := by
  cases g with
  | mk i n d bks gs p t => rfl

theorem rmb_snd_false_of_any_false (id : String) (x : BookmarkGroup)
    (h : x.bookmarks.any (fun bk => bk.id == id) = false) :
    (BookmarkGroup.removeBookmark id x).2 = false := by
  cases hs : (BookmarkGroup.removeBookmark id x).2 with
  | false => rfl
  | true =>
    rcases (groupRemoveBookmark_snd_iff x id).mp hs with ⟨b, hb, hbid⟩
    have : x.bookmarks.any (fun bk => bk.id == id) = true :=
      List.any_eq_true.mpr ⟨b, hb, beq_iff_eq.mpr hbid⟩
    rw [h] at this
    exact absurd this (by simp)

theorem rmb_snd_true_of_any (id : String) (x : BookmarkGroup)
    (h : x.bookmarks.any (fun bk => bk.id == id) = true) :
    (BookmarkGroup.removeBookmark id x).2 = true := by
  rcases List.any_eq_true.mp h with ⟨b, hb, hbid⟩
  exact (groupRemoveBookmark_snd_iff x id).mpr ⟨b, hb, beq_iff_eq.mp hbid⟩

theorem addBookmark_push (b : Bookmark) (g : BookmarkGroup)
    (h : g.bookmarks.any (fun x => x.id == b.id) = false) :
    BookmarkGroup.addBookmark b g = g.setBookmarks (g.bookmarks ++ [b]) := by
  cases g with
  | mk i n d bks gs p t =>
    rw [BookmarkGroup.bookmarks_mk] at h
    rw [BookmarkGroup.addBookmark, if_neg (by rw [h]; simp)]
    rfl

/-- C10, confirmed: calling `moveBookmarkToGroup` with a bookmark that
already resides in the target group returns true; afterward the group still
contains exactly one bookmark with that id, but it has been repositioned to
the end of the group's bookmark list (removed by the internal
`removeBookmark`, then re-appended by `addBookmark`), and change events
fire (twice) even though no cross-group move occurred.  The target group
is a root group here; the hypotheses say the moved id does not occur among
root bookmarks or in the root groups left of the target, and no earlier
root group shares the target's id, so the searches resolve to the target. -/
theorem C10_move_to_own_group (bs : List Bookmark) (l r : List BookmarkGroup)
    (g : BookmarkGroup) (bId : String)
    (hroot : ∀ x ∈ bs, (x.id == bId) = false)
    (hl : ∀ x ∈ l, (x.id == g.id) = false ∧
      x.bookmarks.any (fun bk => bk.id == bId) = false)
    (hg : g.bookmarks.any (fun bk => bk.id == bId) = true) :
    ∃ b, g.bookmarks.find? (fun bk => bk.id == bId) = some b ∧
      moveBookmarkToGroup ⟨bs, l ++ g :: r⟩ bId g.id
        = (⟨bs, l ++ g.setBookmarks
              ((g.bookmarks.filter (fun bk => !(bk.id == bId))) ++ [b]) :: r⟩,
           true, [Ev.fire, Ev.persist, Ev.fire, Ev.persist]) ∧
      ((g.bookmarks.filter (fun bk => !(bk.id == bId))) ++ [b]).countP
          (fun bk => bk.id == bId) = 1 ∧
      ((g.bookmarks.filter (fun bk => !(bk.id == bId))) ++ [b]).getLast?
          = some b := by
  have hfindsome : (g.bookmarks.find? (fun bk => bk.id == bId)).isSome := by
    rw [List.find?_isSome]
    exact List.any_eq_true.mp hg
  rcases Option.isSome_iff_exists.mp hfindsome with ⟨b, hfind⟩
  have hpb0 := List.find?_some hfind
  have hpb : (b.id == bId) = true := hpb0
  refine ⟨b, hfind, ?_, ?_, ?_⟩
  · -- the full run of moveBookmarkToGroup
    have hrootnone : bs.find? (fun x => x.id == bId) = none :=
      List.find?_eq_none.mpr (fun x hx => by rw [hroot x hx]; simp)
    have hfb : findBookmarkById ⟨bs, l ++ g :: r⟩ bId = some b := by
      rw [findBookmarkById]
      dsimp only
      rw [hrootnone]
      have hass : getAllGroups ⟨bs, l ++ g :: r⟩
          = l ++ (g :: (r ++ subGroupsList (l ++ g :: r))) := by
        rw [getAllGroups, allGroupsL, List.append_assoc, List.cons_append]
      rw [hass]
      rw [firstSome_skip_left _ l _ (fun x hx =>
        List.find?_eq_none.mpr (fun bk hbk => by
          have := List.any_eq_false.mp (hl x hx).2 bk hbk
          revert this
          cases (bk.id == bId) <;> simp))]
      exact firstSome_cons_some _ g _ b hfind
    have hgid : findGroupById ⟨bs, l ++ g :: r⟩ g.id = some g := by
      rw [findGroupById, findGroupByIdF]
      rw [find?_append_cons l r _ g (fun y hy => (hl y hy).1)
        (beq_iff_eq.mpr rfl)]
    have hsame : bs.filter (fun x => !(x.id == bId)) = bs :=
      List.filter_eq_self.mpr (fun a ha => by rw [hroot a ha]; rfl)
    have hscan : scanShallow (BookmarkGroup.removeBookmark bId) (l ++ g :: r)
        = some (l ++ (BookmarkGroup.removeBookmark bId g).1 :: r) :=
      scanShallow_hit _ l r g
        (fun y hy => rmb_snd_false_of_any_false bId y (hl y hy).2)
        (rmb_snd_true_of_any bId g hg)
    have hrm : removeBookmark ⟨bs, l ++ g :: r⟩ bId
        = (⟨bs, l ++ g.setBookmarks
              (g.bookmarks.filter (fun bk => !(bk.id == bId))) :: r⟩,
           true, [Ev.fire, Ev.persist]) := by
      rw [removeBookmark]
      dsimp only
      rw [hsame]
      simp only [beq_self_eq_true, Bool.not_true]
      rw [if_neg (by simp : ¬(false = true))]
      rw [visitUpdateForest, hscan]
      rw [groupRemoveBookmark_fst]
    have hnob : (g.bookmarks.filter (fun bk => !(bk.id == bId))).any
        (fun x => x.id == b.id) = false := by
      rw [List.any_eq_false]
      intro x hx
      have hxf := (List.mem_filter.mp hx).2
      rw [beq_iff_eq.mp hpb]
      revert hxf
      cases (x.id == bId) <;> simp
    have hupdscan : scanShallow
        (fun x => if x.id == g.id then (BookmarkGroup.addBookmark b x, true)
          else (x, false))
        (l ++ g.setBookmarks (g.bookmarks.filter (fun bk => !(bk.id == bId))) :: r)
        = some (l ++ (BookmarkGroup.addBookmark b
            (g.setBookmarks (g.bookmarks.filter (fun bk => !(bk.id == bId))))) :: r) := by
      have hres := scanShallow_hit
        (fun x => if x.id == g.id then (BookmarkGroup.addBookmark b x, true)
          else (x, false)) l r
        (g.setBookmarks (g.bookmarks.filter (fun bk => !(bk.id == bId))))
        (fun y hy => by
          have hq := (hl y hy).1
          simp [hq])
        (by
          have hq : ((g.setBookmarks
              (g.bookmarks.filter (fun bk => !(bk.id == bId)))).id == g.id) = true :=
            beq_iff_eq.mpr (setBookmarks_id g _)
          simp [hq])
      rw [hres]
      have hq : ((g.setBookmarks
          (g.bookmarks.filter (fun bk => !(bk.id == bId)))).id == g.id) = true :=
        beq_iff_eq.mpr (setBookmarks_id g _)
      simp [hq]
    have haddeq : BookmarkGroup.addBookmark b
        (g.setBookmarks (g.bookmarks.filter (fun bk => !(bk.id == bId))))
        = g.setBookmarks
            ((g.bookmarks.filter (fun bk => !(bk.id == bId))) ++ [b]) := by
      rw [addBookmark_push b _ (by rw [setBookmarks_bookmarks]; exact hnob)]
      rw [setBookmarks_bookmarks, setBookmarks_setBookmarks]
    have hupd : updateGroupInForest g.id (BookmarkGroup.addBookmark b)
        (l ++ g.setBookmarks (g.bookmarks.filter (fun bk => !(bk.id == bId))) :: r)
        = some (l ++ g.setBookmarks
            ((g.bookmarks.filter (fun bk => !(bk.id == bId))) ++ [b]) :: r) := by
      rw [updateGroupInForest, hupdscan, haddeq]
    rw [moveBookmarkToGroup, hfb, hgid]
    dsimp only
    rw [hrm]
    dsimp only
    rw [hupd]
    rfl
  · rw [List.countP_append, List.countP_eq_zero.mpr ?_]
    · simp [List.countP_cons, hpb]
    · intro x hx
      have hxf := (List.mem_filter.mp hx).2
      revert hxf
      cases (x.id == bId) <;> simp
  · exact List.getLast?_concat _

/-- Fixture for the move-within-group witness: a root group holding two
bookmarks, next to an unrelated earlier root group. -/
def c10bA : Bookmark := ⟨"b1", "file:///p.txt", "p", "", 3⟩

def c10bB : Bookmark := ⟨"b2", "file:///q.txt", "q", "", 3⟩

def c10g : BookmarkGroup := .mk "g1" "G" "" [c10bA, c10bB] [] none 3

def c10other : BookmarkGroup := .mk "g0" "O" "" [] [] none 3

/-- Witness for C10 at concrete inputs: moving `b1` into the group that
already holds it succeeds, leaves exactly one `b1` in the group, and
repositions it at the end of the list, firing two events. -/
theorem C10_move_to_own_group_witness :
    ∃ b, c10g.bookmarks.find? (fun bk => bk.id == "b1") = some b ∧
      moveBookmarkToGroup ⟨[], [c10other] ++ c10g :: []⟩ "b1" c10g.id
        = (⟨[], [c10other] ++ c10g.setBookmarks
              ((c10g.bookmarks.filter (fun bk => !(bk.id == "b1"))) ++ [b]) :: []⟩,
           true, [Ev.fire, Ev.persist, Ev.fire, Ev.persist]) ∧
      ((c10g.bookmarks.filter (fun bk => !(bk.id == "b1"))) ++ [b]).countP
          (fun bk => bk.id == "b1") = 1 ∧
      ((c10g.bookmarks.filter (fun bk => !(bk.id == "b1"))) ++ [b]).getLast?
          = some b :=
  C10_move_to_own_group [] [c10other] [] c10g "b1" (by decide) (by decide) (by decide)
